import Mathlib

/-!
# regia `value.go`: typed accessors over raw strings, and `SyncMap`

A shallow embedding of `Value`, `Values` and the accessors of `value.go`,
together with the parts of Go's `strconv` that the accessors call
(`ParseInt`, `ParseUint` and `ParseBool`, always with base 10), and of
`SyncMap` with its lock and its typed getters.

Conventions of the embedding:

* a Go `string` is a Lean `String`; `strconv` walks the bytes of the string,
  the embedding walks its characters.  Every byte of a non-ASCII character is
  `≥ 0x80` and lands in the same `default:` branch as the character does here;
* a Go `error` is an `Option NumError` (`none` is `nil`);
* a variadic parameter `def ...T` is a `List T`;
* machine integers are `Nat`/`Int` with the wrap-around written out;
* indexing a slice is fallible (`index`), so an accessor returns
  `Except Panic _`.
-/

namespace Regia

/-! ## Go runtime -/

/-- Word size of the target platform: the width of Go's `int` and `uint`. -/
inductive Arch where
  | bits32
  | bits64
deriving DecidableEq, Repr

/-- Value of `^uint(0) >> 63`: `0` on a 32-bit platform, `1` on a 64-bit one. -/
def Arch.uintTopBit : Arch → Nat
  | .bits32 => 0
  | .bits64 => 1

/-- Go's `strconv.IntSize`, `32 << (^uint(0) >> 63)`. -/
def IntSize (arch : Arch) : Nat := 32 <<< arch.uintTopBit

/-- Run-time panics the embedded code could raise. -/
inductive Panic where
  | indexOutOfRange (i len : Nat)
deriving DecidableEq, Repr

deriving instance DecidableEq for Except

/-- Go slice indexing `xs[i]`, which panics unless `i < len(xs)`. -/
def index {α : Type} (xs : List α) (i : Nat) : Except Panic α :=
  match xs[i]? with
  | some x => .ok x
  | none => .error (.indexOutOfRange i xs.length)

/-- Largest `uint64`, `1<<64 - 1`. -/
def maxUint64 : Nat := 2 ^ 64 - 1

/-- Conversion to a signed integer type of `w` bits (two's complement wrap). -/
def toIntN (w : Nat) (n : Int) : Int := (n + 2 ^ (w - 1)) % 2 ^ w - 2 ^ (w - 1)

/-- Conversion to an unsigned integer type of `w` bits. -/
def toUintN (w : Nat) (n : Nat) : Nat := n % 2 ^ w

/-! ## `strconv` -/

/-- The sentinel errors wrapped by a `strconv.NumError`. -/
inductive ErrKind where
  | ErrSyntax
  | ErrRange
  | invalidBitSize (bitSize : Nat)
deriving DecidableEq, Repr

/-- Go's `strconv.NumError`. -/
structure NumError where
  Func : String
  Num : String
  Err : ErrKind
deriving DecidableEq, Repr

def syntaxError (fn str : String) : NumError := ⟨fn, str, .ErrSyntax⟩

def rangeError (fn str : String) : NumError := ⟨fn, str, .ErrRange⟩

def bitSizeError (fn str : String) (bitSize : Nat) : NumError :=
  ⟨fn, str, .invalidBitSize bitSize⟩

def fnParseUint : String := "ParseUint"

def fnParseInt : String := "ParseInt"

/-- Go's `lower(c)`, `c | ('x' - 'X')`. -/
def lower (c : Nat) : Nat := c ||| (120 - 88)

/-- The digit `switch` of `ParseUint` for `base != 0`: `'0'..'9'` give their
value, a letter gives `lower(c) - 'a' + 10` (byte arithmetic), anything else
is the `default:` branch (`none`). -/
def digitOf (ch : Char) : Option Nat :=
  let c := ch.toNat
  if 48 ≤ c ∧ c ≤ 57 then some (c - 48)
  else if 97 ≤ lower c ∧ lower c ≤ 122 then some ((lower c - 97 + 10) % 256)
  else none

/-- The `for _, c := range []byte(s)` loop of `ParseUint` with `base = 10`;
`n` is the accumulator, a `uint64`. -/
def parseUintLoop (s0 : String) (cutoff maxVal : Nat) :
    Nat → List Char → Nat × Option NumError
  | n, [] => (n, none)
  | n, ch :: rest =>
    match digitOf ch with
    | none => (0, some (syntaxError fnParseUint s0))
    | some d =>
      if d ≥ 10 then (0, some (syntaxError fnParseUint s0))
      else if n ≥ cutoff then (maxVal, some (rangeError fnParseUint s0))
      else
        let n10 := (n * 10) % 2 ^ 64
        let n1 := (n10 + d) % 2 ^ 64
        if n1 < n10 ∨ n1 > maxVal then (maxVal, some (rangeError fnParseUint s0))
        else parseUintLoop s0 cutoff maxVal n1 rest

/-- Go's `strconv.ParseUint(s, 10, bitSize)`.  With `base = 10` the flag
`base0` is false, so the prefix and underscore branches are never entered.
`bitSize` is a `Nat`, so of `bitSize < 0 || bitSize > 64` only the second test
remains. -/
def ParseUint (arch : Arch) (s : String) (bitSize : Nat) : Nat × Option NumError :=
  if s = "" then (0, some (syntaxError fnParseUint s))
  else
    let s0 := s
    let bitSize1 := if bitSize = 0 then IntSize arch else bitSize
    if bitSize1 > 64 then (0, some (bitSizeError fnParseUint s0 bitSize1))
    else
      let cutoff := maxUint64 / 10 + 1
      let maxVal := ((1 <<< bitSize1) % 2 ^ 64 + 2 ^ 64 - 1) % 2 ^ 64
      parseUintLoop s0 cutoff maxVal 0 s.data

/-- The step "pick off leading sign" of `ParseInt`: the flag `neg` and the
rest of the string, `s[1:]` after a `+` or a `-`. -/
def leadingSign (cs : List Char) : Bool × List Char :=
  match cs with
  | '+' :: rest => (false, rest)
  | '-' :: rest => (true, rest)
  | cs => (false, cs)

/-- Go's `strconv.ParseInt(s, 10, bitSize)`. -/
def ParseInt (arch : Arch) (s : String) (bitSize : Nat) : Int × Option NumError :=
  if s = "" then (0, some (syntaxError fnParseInt s))
  else
    let s0 := s
    let signed := leadingSign s.data
    let neg := signed.1
    let r := ParseUint arch (String.mk signed.2) bitSize
    let un := r.1
    match r.2.filter (fun e => e.Err != .ErrRange) with
    | some e => (0, some { e with Func := fnParseInt, Num := s0 })
    | none =>
      let bitSize1 := if bitSize = 0 then IntSize arch else bitSize
      let cutoff := (1 <<< (bitSize1 - 1)) % 2 ^ 64
      if !neg ∧ un ≥ cutoff then
        (toIntN 64 ((cutoff : Int) - 1), some (rangeError fnParseInt s0))
      else if neg ∧ un > cutoff then
        (toIntN 64 (-(toIntN 64 cutoff)), some (rangeError fnParseInt s0))
      else
        let n := toIntN 64 un
        (if neg then toIntN 64 (-n) else n, none)

/-- Go's `strconv.ParseBool`. -/
def ParseBool (str : String) : Bool × Option NumError :=
  if str = "1" ∨ str = "t" ∨ str = "T" ∨ str = "TRUE" ∨ str = "true" ∨ str = "True" then
    (true, none)
  else if str = "0" ∨ str = "f" ∨ str = "F" ∨ str = "FALSE" ∨ str = "false"
      ∨ str = "False" then
    (false, none)
  else (false, some (syntaxError "ParseBool" str))

/-! ## `Value` -/

/-- Go's `type Value string`. -/
abbrev Value := String

def Value.IsEmpty (v : Value) : Bool := v == ""

def Value.Text (v : Value) (dflt : List String) : Except Panic String :=
  if v.IsEmpty ∧ dflt.length > 0 then index dflt 0
  else .ok v

/-- Go's `type Values []Value`. -/
abbrev Values := List Value

/-- Go's `NewValues`: `make(Values, len(values))` is a slice of `len(values)` zero
values (empty strings), to which the loop appends every item in turn. -/
def NewValues (values : List String) : Values :=
  values.foldl (fun (v : Values) item => v ++ [(item : Value)])
    (List.replicate values.length ("" : Value))

def Value.Int (arch : Arch) (v : Value) (dflt : List ℤ) :
    Except Panic (ℤ × Option NumError) :=
  let r := ParseInt arch v 0
  let i := r.1
  let err := r.2
  if err.isSome ∨ v.IsEmpty then
    if dflt.length > 0 then (index dflt 0).map (fun d => (d, err))
    else .ok (toIntN (IntSize arch) i, err)
  else .ok (toIntN (IntSize arch) i, err)

def Value.Int8 (arch : Arch) (v : Value) (dflt : List ℤ) :
    Except Panic (ℤ × Option NumError) :=
  let r := ParseInt arch v 8
  let i := r.1
  let err := r.2
  if err.isSome ∨ v.IsEmpty then
    if dflt.length > 0 then (index dflt 0).map (fun d => (d, err))
    else .ok (toIntN 8 i, err)
  else .ok (toIntN 8 i, err)

def Value.Int16 (arch : Arch) (v : Value) (dflt : List ℤ) :
    Except Panic (ℤ × Option NumError) :=
  let r := ParseInt arch v 16
  let i := r.1
  let err := r.2
  if err.isSome ∨ v.IsEmpty then
    if dflt.length > 0 then (index dflt 0).map (fun d => (d, err))
    else .ok (toIntN 16 i, err)
  else .ok (toIntN 16 i, err)

def Value.Int32 (arch : Arch) (v : Value) (dflt : List ℤ) :
    Except Panic (ℤ × Option NumError) :=
  let r := ParseInt arch v 32
  let i := r.1
  let err := r.2
  if err.isSome ∨ v.IsEmpty then
    if dflt.length > 0 then (index dflt 0).map (fun d => (d, err))
    else .ok (toIntN 32 i, err)
  else .ok (toIntN 32 i, err)

def Value.Int64 (arch : Arch) (v : Value) (dflt : List ℤ) :
    Except Panic (ℤ × Option NumError) :=
  let r := ParseInt arch v 64
  let i := r.1
  let err := r.2
  if err.isSome ∨ v.IsEmpty then
    if dflt.length > 0 then (index dflt 0).map (fun d => (d, err))
    else .ok (i, err)
  else .ok (i, err)

def Value.Uint (arch : Arch) (v : Value) (dflt : List ℕ) :
    Except Panic (ℕ × Option NumError) :=
  let r := ParseUint arch v 0
  let i := r.1
  let err := r.2
  if err.isSome ∨ v.IsEmpty then
    if dflt.length > 0 then (index dflt 0).map (fun d => (d, err))
    else .ok (toUintN (IntSize arch) i, err)
  else .ok (toUintN (IntSize arch) i, err)

def Value.Uint8 (arch : Arch) (v : Value) (dflt : List ℕ) :
    Except Panic (ℕ × Option NumError) :=
  let r := ParseUint arch v 8
  let i := r.1
  let err := r.2
  if err.isSome ∨ v.IsEmpty then
    if dflt.length > 0 then (index dflt 0).map (fun d => (d, err))
    else .ok (toUintN 8 i, err)
  else .ok (toUintN 8 i, err)

def Value.Uint16 (arch : Arch) (v : Value) (dflt : List ℕ) :
    Except Panic (ℕ × Option NumError) :=
  let r := ParseUint arch v 16
  let i := r.1
  let err := r.2
  if err.isSome ∨ v.IsEmpty then
    if dflt.length > 0 then (index dflt 0).map (fun d => (d, err))
    else .ok (toUintN 16 i, err)
  else .ok (toUintN 16 i, err)

def Value.Uint32 (arch : Arch) (v : Value) (dflt : List ℕ) :
    Except Panic (ℕ × Option NumError) :=
  let r := ParseUint arch v 32
  let i := r.1
  let err := r.2
  if err.isSome ∨ v.IsEmpty then
    if dflt.length > 0 then (index dflt 0).map (fun d => (d, err))
    else .ok (toUintN 32 i, err)
  else .ok (toUintN 32 i, err)

def Value.Uint64 (arch : Arch) (v : Value) (dflt : List ℕ) :
    Except Panic (ℕ × Option NumError) :=
  let r := ParseUint arch v 64
  let i := r.1
  let err := r.2
  if err.isSome ∨ v.IsEmpty then
    if dflt.length > 0 then (index dflt 0).map (fun d => (d, err))
    else .ok (i, err)
  else .ok (i, err)

def Value.Bool (v : Value) (dflt : List Bool) : Except Panic (Bool × Option NumError) :=
  if v.IsEmpty then .ok (false, none)
  else
    let r := ParseBool v
    let i := r.1
    let err := r.2
    if err.isSome then
      if dflt.length > 0 then (index dflt 0).map (fun d => (d, err))
      else .ok (i, err)
    else .ok (i, err)

/-- Go's `time.Duration`, an `int64` count of nanoseconds. -/
structure time.Duration where
  nanoseconds : Int
deriving DecidableEq, Repr

def Value.Duration (arch : Arch) (v : Value) (dflt : List ℤ) :
    Except Panic (time.Duration × Option NumError) :=
  (Value.Int64 arch v dflt).map (fun r => (time.Duration.mk r.1, r.2))

/-- The ten integer accessors of `Value`. -/
inductive IntAccessor where
  | Int | Int8 | Int16 | Int32 | Int64
  | Uint | Uint8 | Uint16 | Uint32 | Uint64
deriving DecidableEq, Repr

/-- Whether the accessor's result type is a signed integer type. -/
def IntAccessor.signed : IntAccessor → Bool
  | .Int | .Int8 | .Int16 | .Int32 | .Int64 => true
  | .Uint | .Uint8 | .Uint16 | .Uint32 | .Uint64 => false

/-- Width in bits of the accessor's result type. -/
def IntAccessor.bits (arch : Arch) : IntAccessor → ℕ
  | .Int | .Uint => IntSize arch
  | .Int8 | .Uint8 => 8
  | .Int16 | .Uint16 => 16
  | .Int32 | .Uint32 => 32
  | .Int64 | .Uint64 => 64

/-- Lean carrier of the accessor's result type. -/
@[reducible] def IntAccessor.T : IntAccessor → Type
  | .Int | .Int8 | .Int16 | .Int32 | .Int64 => ℤ
  | .Uint | .Uint8 | .Uint16 | .Uint32 | .Uint64 => ℕ

/-- The number a result of the accessor stands for. -/
def IntAccessor.toInt : (a : IntAccessor) → a.T → ℤ
  | .Int, n | .Int8, n | .Int16, n | .Int32, n | .Int64, n => n
  | .Uint, n | .Uint8, n | .Uint16, n | .Uint32, n | .Uint64, n => (n : ℤ)

/-- Dispatch to the accessor method named by `a`. -/
def IntAccessor.call : (a : IntAccessor) → Arch → Value → List a.T →
    Except Panic (a.T × Option NumError)
  | .Int => Value.Int
  | .Int8 => Value.Int8
  | .Int16 => Value.Int16
  | .Int32 => Value.Int32
  | .Int64 => Value.Int64
  | .Uint => Value.Uint
  | .Uint8 => Value.Uint8
  | .Uint16 => Value.Uint16
  | .Uint32 => Value.Uint32
  | .Uint64 => Value.Uint64

/-- The `strconv` function the accessor calls, as named in its errors. -/
def IntAccessor.fn (a : IntAccessor) : String :=
  if a.signed then fnParseInt else fnParseUint

/-- The pair an accessor returns when it does not substitute a default: its
`strconv` call on `v`, the number converted to the result type. -/
def IntAccessor.parse : (a : IntAccessor) → Arch → Value → a.T × Option NumError
  | .Int, arch, v => (toIntN (IntSize arch) (ParseInt arch v 0).1, (ParseInt arch v 0).2)
  | .Int8, arch, v => (toIntN 8 (ParseInt arch v 8).1, (ParseInt arch v 8).2)
  | .Int16, arch, v => (toIntN 16 (ParseInt arch v 16).1, (ParseInt arch v 16).2)
  | .Int32, arch, v => (toIntN 32 (ParseInt arch v 32).1, (ParseInt arch v 32).2)
  | .Int64, arch, v => ((ParseInt arch v 64).1, (ParseInt arch v 64).2)
  | .Uint, arch, v => (toUintN (IntSize arch) (ParseUint arch v 0).1, (ParseUint arch v 0).2)
  | .Uint8, arch, v => (toUintN 8 (ParseUint arch v 8).1, (ParseUint arch v 8).2)
  | .Uint16, arch, v => (toUintN 16 (ParseUint arch v 16).1, (ParseUint arch v 16).2)
  | .Uint32, arch, v => (toUintN 32 (ParseUint arch v 32).1, (ParseUint arch v 32).2)
  | .Uint64, arch, v => ((ParseUint arch v 64).1, (ParseUint arch v 64).2)

/-! ## Specification vocabulary

These definitions follow the wording of the specification, not the code: what
a base-10 literal is, which number it denotes, and the range of a width. -/

/-- Number denoted by a run of decimal digits, most significant first,
continuing from the number `n` read so far. -/
def digitsValueFrom (n : ℕ) (cs : List Char) : ℕ :=
  cs.foldl (fun acc c => acc * 10 + (c.toNat - 48)) n

/-- Number denoted by a run of decimal digits. -/
def digitsValue (cs : List Char) : ℕ := digitsValueFrom 0 cs

/-- One or more decimal digits. -/
def isDigits (cs : List Char) : Bool := !cs.isEmpty && cs.all Char.isDigit

/-- Unsigned base-10 literal: one or more decimal digits, no sign. -/
def isUintLiteral (s : String) : Bool := isDigits s.data

/-- Signed base-10 literal: an optional `+` or `-`, then one or more digits. -/
def isIntLiteral (s : String) : Bool :=
  match s.data with
  | '+' :: rest => isDigits rest
  | '-' :: rest => isDigits rest
  | cs => isDigits cs

/-- Number denoted by an unsigned literal. -/
def uintLiteralValue (s : String) : ℤ := (digitsValue s.data : ℤ)

/-- Number denoted by a signed literal. -/
def intLiteralValue (s : String) : ℤ :=
  match s.data with
  | '+' :: rest => (digitsValue rest : ℤ)
  | '-' :: rest => -(digitsValue rest : ℤ)
  | cs => (digitsValue cs : ℤ)

/-- Spellings of `true` accepted by standard boolean parsing. -/
def trueLiterals : List String := ["1", "t", "T", "TRUE", "true", "True"]

/-- Spellings of `false` accepted by standard boolean parsing. -/
def falseLiterals : List String := ["0", "f", "F", "FALSE", "false", "False"]

/-- The lower-cased form of a string. -/
def lowerCased (s : String) : String := String.mk (s.data.map Char.toLower)

/-- Whether `s` is a base-10 integer literal of the accessor's signedness. -/
def IntAccessor.isLiteral (a : IntAccessor) (s : String) : Bool :=
  if a.signed then isIntLiteral s else isUintLiteral s

/-- Number denoted by `s` read as a literal of the accessor's signedness. -/
def IntAccessor.literalValue (a : IntAccessor) (s : String) : ℤ :=
  if a.signed then intLiteralValue s else uintLiteralValue s

/-- Smallest number of the accessor's result type. -/
def IntAccessor.minVal (a : IntAccessor) (arch : Arch) : ℤ :=
  if a.signed then -((2 ^ (a.bits arch - 1) : ℕ) : ℤ) else 0

/-- Largest number of the accessor's result type. -/
def IntAccessor.maxVal (a : IntAccessor) (arch : Arch) : ℤ :=
  if a.signed then ((2 ^ (a.bits arch - 1) : ℕ) : ℤ) - 1 else ((2 ^ a.bits arch : ℕ) : ℤ) - 1

/-- The literal's number fits the accessor's result type. -/
def IntAccessor.inRange (a : IntAccessor) (arch : Arch) (s : String) : Prop :=
  a.minVal arch ≤ a.literalValue s ∧ a.literalValue s ≤ a.maxVal arch

instance (a : IntAccessor) (arch : Arch) (s : String) : Decidable (a.inRange arch s) := by
  unfold IntAccessor.inRange; infer_instance

/-! ## `SyncMap`

A value of type `interface{}` is an `Any`: `nil`, or a value of one of the
types the typed getters assert, or a value of some other type, given by a
code for the type and a code for the value.  Floating-point arithmetic is not
part of the embedding, so `GetFloat32` and `GetFloat64` are left out.  What a
map does with a key is: a value of a type without equality (a slice, a map, a
function) is `unhashable`, and using it as a key panics; a value that is not
equal to itself (a float NaN) is `nan`, and a map stores it but never finds it
again; every other value is found by Go's `==`.

The methods pass the store explicitly: each returns the store it leaves
behind.  The lock is part of the store; a call that has to wait for the lock
does not return, which is the fault `blocked`. -/

/-- A Go value held in an `interface{}`, tagged with its dynamic type. -/
inductive Any where
  | nil
  | string (s : String)
  | int (n : ℤ)
  | int8 (n : ℤ)
  | int16 (n : ℤ)
  | int32 (n : ℤ)
  | int64 (n : ℤ)
  | uint (n : ℕ)
  | uint8 (n : ℕ)
  | uint16 (n : ℕ)
  | uint32 (n : ℕ)
  | uint64 (n : ℕ)
  | bool (b : Bool)
  | other (type value : ℕ)
  | nan
  | unhashable (type value : ℕ)
deriving DecidableEq, Repr

/-- Ways a call on a `SyncMap` can fail to return. -/
inductive Fault where
  | panic (p : Panic)
  | nilMapAssign
  | hashOfUnhashable
  | unlockOfUnlocked
  | blocked
deriving DecidableEq, Repr

/-- Whether Go can hash the value; hashing any other value panics. -/
def Any.hashable : Any → Bool
  | .unhashable _ _ => false
  | _ => true

/-- Go's `==` on two hashable interface values, as a map applies it to its
keys: the same dynamic type and the same value, except that NaN is not equal
to itself. -/
def Any.keyEq (a b : Any) : Bool := decide (a = b) && decide (a ≠ Any.nan)

/-- Slice indexing inside a `SyncMap` method. -/
def indexF {α : Type} (xs : List α) (i : ℕ) : Except Fault α :=
  match index xs i with
  | .ok x => .ok x
  | .error p => .error (.panic p)

/-- A non-nil Go `map[interface{}]interface{}`: its entries, in the order in
which their keys were first stored.  `len(m)` is the length of the list. -/
abbrev GoMap := List (Any × Any)

/-- Go's `make(map[interface{}]interface{})`. -/
def GoMap.empty : GoMap := []

/-- The value of the entry whose key is equal to `key`, if there is one. -/
def GoMap.lookup (m : GoMap) (key : Any) : Option Any :=
  (m.find? fun e => Any.keyEq e.1 key).map Prod.snd

/-- The map after `m[key] = value` for a hashable key: the entry whose key is
equal to `key` gets the value, and if there is none a new entry is added. -/
def GoMap.insert (m : GoMap) (key value : Any) : GoMap :=
  if m.any (fun e => Any.keyEq e.1 key) then
    m.map fun e => if Any.keyEq e.1 key then (e.1, value) else e
  else m ++ [(key, value)]

/-- Go's `value, exist = m[key]`.  The key is hashed first, also when the map
is nil, which panics on an unhashable key; reading a nil map gives the zero
value and `false`. -/
def mapIndex (item : Option GoMap) (key : Any) : Except Fault (Any × Bool) :=
  if key.hashable = false then .error .hashOfUnhashable
  else
    match item with
    | none => .ok (.nil, false)
    | some m =>
      match m.lookup key with
      | some v => .ok (v, true)
      | none => .ok (.nil, false)

/-- Go's `m[key] = value`, which panics on a nil map and on an unhashable
key. -/
def mapAssign (item : Option GoMap) (key value : Any) : Except Fault GoMap :=
  match item with
  | none => .error .nilMapAssign
  | some m =>
    if key.hashable = false then .error .hashOfUnhashable
    else .ok (m.insert key value)

/-- State of a `sync.RWMutex`: whether it is held for writing, and the number
of holders for reading. -/
structure RWMutex where
  writer : Bool
  readers : ℕ
deriving DecidableEq, Repr

/-- The zero value of `sync.RWMutex`, an unlocked mutex. -/
def RWMutex.unlocked : RWMutex := ⟨false, 0⟩

/-- Go's `mu.Lock()`: waits until no one holds the mutex. -/
def RWMutex.Lock (mu : RWMutex) : Except Fault RWMutex :=
  if mu.writer = false ∧ mu.readers = 0 then .ok { mu with writer := true }
  else .error .blocked

/-- Go's `mu.Unlock()`: a fatal error if the mutex is not held for writing. -/
def RWMutex.Unlock (mu : RWMutex) : Except Fault RWMutex :=
  if mu.writer = true then .ok { mu with writer := false }
  else .error .unlockOfUnlocked

/-- Go's `mu.RLock()`: waits while the mutex is held for writing. -/
def RWMutex.RLock (mu : RWMutex) : Except Fault RWMutex :=
  if mu.writer = false then .ok { mu with readers := mu.readers + 1 }
  else .error .blocked

/-- Go's `mu.RUnlock()`: a fatal error if the mutex is not held for reading. -/
def RWMutex.RUnlock (mu : RWMutex) : Except Fault RWMutex :=
  if mu.readers > 0 then .ok { mu with readers := mu.readers - 1 }
  else .error .unlockOfUnlocked

/-- Go's `SyncMap`; `item = none` is the nil map. -/
structure SyncMap where
  item : Option GoMap
  mu : RWMutex
deriving DecidableEq, Repr

/-- Go's `new(SyncMap)`, the zero value. -/
def SyncMap.new : SyncMap := ⟨none, RWMutex.unlocked⟩

/-- The four statements of `Set`, one per step: `d.mu.Lock()`, the lazy
allocation `if d.item == nil`, the assignment `d.item[key] = value`, and
`d.mu.Unlock()`. -/
def SyncMap.setStep (key value : Any) (d : SyncMap) : ℕ → Except Fault SyncMap
  | 0 => d.mu.Lock.map fun mu1 => { d with mu := mu1 }
  | 1 => .ok (if d.item.isNone then { d with item := some GoMap.empty } else d)
  | 2 => (mapAssign d.item key value).map fun m => { d with item := some m }
  | _ => d.mu.Unlock.map fun mu1 => { d with mu := mu1 }

def SyncMap.Set (d : SyncMap) (key value : Any) : Except Fault SyncMap :=
  (SyncMap.setStep key value d 0).bind fun d1 =>
    (SyncMap.setStep key value d1 1).bind fun d2 =>
      (SyncMap.setStep key value d2 2).bind fun d3 =>
        SyncMap.setStep key value d3 3

def SyncMap.Get (d : SyncMap) (key : Any) : Except Fault ((Any × Bool) × SyncMap) :=
  d.mu.RLock.bind fun mu1 =>
    let d1 : SyncMap := { d with mu := mu1 }
    (mapIndex d1.item key).bind fun r =>
      d1.mu.RUnlock.map fun mu2 => (r, { d1 with mu := mu2 })

def SyncMap.Clear (d : SyncMap) : Except Fault SyncMap :=
  d.mu.Lock.bind fun mu1 =>
    let d1 : SyncMap := { d with mu := mu1 }
    let d2 : SyncMap := { d1 with item := none }
    d2.mu.Unlock.map fun mu2 => { d2 with mu := mu2 }

def SyncMap.Reset (d : SyncMap) : Except Fault SyncMap :=
  SyncMap.Clear d

def SyncMap.GetString (d : SyncMap) (key : Any) (dflt : List String) :
    Except Fault (String × SyncMap) :=
  (SyncMap.Get d key).bind fun r =>
    let value := r.1.1
    let exist := r.1.2
    let d1 := r.2
    let assert : Except Fault (String × SyncMap) :=
      match value with
      | .string i => .ok (i, d1)
      | _ =>
        if dflt.length > 0 then (indexF dflt 0).map fun x => (x, d1)
        else .ok ("", d1)
    if exist = false then
      if dflt.length > 0 then (indexF dflt 0).map fun x => (x, d1)
      else assert
    else assert

def SyncMap.GetInt (d : SyncMap) (key : Any) (dflt : List ℤ) :
    Except Fault (ℤ × SyncMap) :=
  (SyncMap.Get d key).bind fun r =>
    let value := r.1.1
    let exist := r.1.2
    let d1 := r.2
    let assert : Except Fault (ℤ × SyncMap) :=
      match value with
      | .int i => .ok (i, d1)
      | _ =>
        if dflt.length > 0 then (indexF dflt 0).map fun x => (x, d1)
        else .ok (0, d1)
    if exist = false then
      if dflt.length > 0 then (indexF dflt 0).map fun x => (x, d1)
      else assert
    else assert

def SyncMap.GetInt8 (d : SyncMap) (key : Any) (dflt : List ℤ) :
    Except Fault (ℤ × SyncMap) :=
  (SyncMap.Get d key).bind fun r =>
    let value := r.1.1
    let exist := r.1.2
    let d1 := r.2
    let assert : Except Fault (ℤ × SyncMap) :=
      match value with
      | .int8 i => .ok (i, d1)
      | _ =>
        if dflt.length > 0 then (indexF dflt 0).map fun x => (x, d1)
        else .ok (0, d1)
    if exist = false then
      if dflt.length > 0 then (indexF dflt 0).map fun x => (x, d1)
      else assert
    else assert

def SyncMap.GetInt16 (d : SyncMap) (key : Any) (dflt : List ℤ) :
    Except Fault (ℤ × SyncMap) :=
  (SyncMap.Get d key).bind fun r =>
    let value := r.1.1
    let exist := r.1.2
    let d1 := r.2
    let assert : Except Fault (ℤ × SyncMap) :=
      match value with
      | .int16 i => .ok (i, d1)
      | _ =>
        if dflt.length > 0 then (indexF dflt 0).map fun x => (x, d1)
        else .ok (0, d1)
    if exist = false then
      if dflt.length > 0 then (indexF dflt 0).map fun x => (x, d1)
      else assert
    else assert

def SyncMap.GetInt32 (d : SyncMap) (key : Any) (dflt : List ℤ) :
    Except Fault (ℤ × SyncMap) :=
  (SyncMap.Get d key).bind fun r =>
    let value := r.1.1
    let exist := r.1.2
    let d1 := r.2
    let assert : Except Fault (ℤ × SyncMap) :=
      match value with
      | .int32 i => .ok (i, d1)
      | _ =>
        if dflt.length > 0 then (indexF dflt 0).map fun x => (x, d1)
        else .ok (0, d1)
    if exist = false then
      if dflt.length > 0 then (indexF dflt 0).map fun x => (x, d1)
      else assert
    else assert

def SyncMap.GetInt64 (d : SyncMap) (key : Any) (dflt : List ℤ) :
    Except Fault (ℤ × SyncMap) :=
  (SyncMap.Get d key).bind fun r =>
    let value := r.1.1
    let exist := r.1.2
    let d1 := r.2
    let assert : Except Fault (ℤ × SyncMap) :=
      match value with
      | .int64 i => .ok (i, d1)
      | _ =>
        if dflt.length > 0 then (indexF dflt 0).map fun x => (x, d1)
        else .ok (0, d1)
    if exist = false then
      if dflt.length > 0 then (indexF dflt 0).map fun x => (x, d1)
      else assert
    else assert

def SyncMap.GetUint (d : SyncMap) (key : Any) (dflt : List ℕ) :
    Except Fault (ℕ × SyncMap) :=
  (SyncMap.Get d key).bind fun r =>
    let value := r.1.1
    let exist := r.1.2
    let d1 := r.2
    let assert : Except Fault (ℕ × SyncMap) :=
      match value with
      | .uint i => .ok (i, d1)
      | _ =>
        if dflt.length > 0 then (indexF dflt 0).map fun x => (x, d1)
        else .ok (0, d1)
    if exist = false then
      if dflt.length > 0 then (indexF dflt 0).map fun x => (x, d1)
      else assert
    else assert

def SyncMap.GetUint8 (d : SyncMap) (key : Any) (dflt : List ℕ) :
    Except Fault (ℕ × SyncMap) :=
  (SyncMap.Get d key).bind fun r =>
    let value := r.1.1
    let exist := r.1.2
    let d1 := r.2
    let assert : Except Fault (ℕ × SyncMap) :=
      match value with
      | .uint8 i => .ok (i, d1)
      | _ =>
        if dflt.length > 0 then (indexF dflt 0).map fun x => (x, d1)
        else .ok (0, d1)
    if exist = false then
      if dflt.length > 0 then (indexF dflt 0).map fun x => (x, d1)
      else assert
    else assert

def SyncMap.GetUint16 (d : SyncMap) (key : Any) (dflt : List ℕ) :
    Except Fault (ℕ × SyncMap) :=
  (SyncMap.Get d key).bind fun r =>
    let value := r.1.1
    let exist := r.1.2
    let d1 := r.2
    let assert : Except Fault (ℕ × SyncMap) :=
      match value with
      | .uint16 i => .ok (i, d1)
      | _ =>
        if dflt.length > 0 then (indexF dflt 0).map fun x => (x, d1)
        else .ok (0, d1)
    if exist = false then
      if dflt.length > 0 then (indexF dflt 0).map fun x => (x, d1)
      else assert
    else assert

def SyncMap.GetUint32 (d : SyncMap) (key : Any) (dflt : List ℕ) :
    Except Fault (ℕ × SyncMap) :=
  (SyncMap.Get d key).bind fun r =>
    let value := r.1.1
    let exist := r.1.2
    let d1 := r.2
    let assert : Except Fault (ℕ × SyncMap) :=
      match value with
      | .uint32 i => .ok (i, d1)
      | _ =>
        if dflt.length > 0 then (indexF dflt 0).map fun x => (x, d1)
        else .ok (0, d1)
    if exist = false then
      if dflt.length > 0 then (indexF dflt 0).map fun x => (x, d1)
      else assert
    else assert

def SyncMap.GetUint64 (d : SyncMap) (key : Any) (dflt : List ℕ) :
    Except Fault (ℕ × SyncMap) :=
  (SyncMap.Get d key).bind fun r =>
    let value := r.1.1
    let exist := r.1.2
    let d1 := r.2
    let assert : Except Fault (ℕ × SyncMap) :=
      match value with
      | .uint64 i => .ok (i, d1)
      | _ =>
        if dflt.length > 0 then (indexF dflt 0).map fun x => (x, d1)
        else .ok (0, d1)
    if exist = false then
      if dflt.length > 0 then (indexF dflt 0).map fun x => (x, d1)
      else assert
    else assert

def SyncMap.GetBool (d : SyncMap) (key : Any) (dflt : List Bool) :
    Except Fault (Bool × SyncMap) :=
  (SyncMap.Get d key).bind fun r =>
    let value := r.1.1
    let exist := r.1.2
    let d1 := r.2
    let assert : Except Fault (Bool × SyncMap) :=
      match value with
      | .bool i => .ok (i, d1)
      | _ =>
        if dflt.length > 0 then (indexF dflt 0).map fun x => (x, d1)
        else .ok (false, d1)
    if exist = false then
      if dflt.length > 0 then (indexF dflt 0).map fun x => (x, d1)
      else assert
    else assert

/-- The typed getters of `SyncMap`. -/
inductive Getter where
  | GetString
  | GetInt
  | GetInt8
  | GetInt16
  | GetInt32
  | GetInt64
  | GetUint
  | GetUint8
  | GetUint16
  | GetUint32
  | GetUint64
  | GetBool
deriving DecidableEq, Repr

/-- Lean carrier of the getter's result type. -/
@[reducible] def Getter.T : Getter → Type
  | .GetString => String
  | .GetInt => ℤ
  | .GetInt8 => ℤ
  | .GetInt16 => ℤ
  | .GetInt32 => ℤ
  | .GetInt64 => ℤ
  | .GetUint => ℕ
  | .GetUint8 => ℕ
  | .GetUint16 => ℕ
  | .GetUint32 => ℕ
  | .GetUint64 => ℕ
  | .GetBool => Bool

/-- The zero value of the getter's result type. -/
def Getter.zero : (g : Getter) → g.T
  | .GetString => ""
  | .GetInt => (0 : ℤ)
  | .GetInt8 => (0 : ℤ)
  | .GetInt16 => (0 : ℤ)
  | .GetInt32 => (0 : ℤ)
  | .GetInt64 => (0 : ℤ)
  | .GetUint => (0 : ℕ)
  | .GetUint8 => (0 : ℕ)
  | .GetUint16 => (0 : ℕ)
  | .GetUint32 => (0 : ℕ)
  | .GetUint64 => (0 : ℕ)
  | .GetBool => false

/-- The `interface{}` value that holds `t` with the getter's result type as
its dynamic type. -/
def Getter.box : (g : Getter) → g.T → Any
  | .GetString, t => .string t
  | .GetInt, t => .int t
  | .GetInt8, t => .int8 t
  | .GetInt16, t => .int16 t
  | .GetInt32, t => .int32 t
  | .GetInt64, t => .int64 t
  | .GetUint, t => .uint t
  | .GetUint8, t => .uint8 t
  | .GetUint16, t => .uint16 t
  | .GetUint32, t => .uint32 t
  | .GetUint64, t => .uint64 t
  | .GetBool, t => .bool t

/-- Dispatch to the typed getter named by `g`. -/
def Getter.call : (g : Getter) → SyncMap → Any → List g.T → Except Fault (g.T × SyncMap)
  | .GetString => SyncMap.GetString
  | .GetInt => SyncMap.GetInt
  | .GetInt8 => SyncMap.GetInt8
  | .GetInt16 => SyncMap.GetInt16
  | .GetInt32 => SyncMap.GetInt32
  | .GetInt64 => SyncMap.GetInt64
  | .GetUint => SyncMap.GetUint
  | .GetUint8 => SyncMap.GetUint8
  | .GetUint16 => SyncMap.GetUint16
  | .GetUint32 => SyncMap.GetUint32
  | .GetUint64 => SyncMap.GetUint64
  | .GetBool => SyncMap.GetBool

/-- The value of the getter's result type held in `x`, if the dynamic type of
`x` is exactly that type. -/
def Getter.unbox : (g : Getter) → Any → Option g.T
  | .GetString, .string t => some t
  | .GetInt, .int t => some t
  | .GetInt8, .int8 t => some t
  | .GetInt16, .int16 t => some t
  | .GetInt32, .int32 t => some t
  | .GetInt64, .int64 t => some t
  | .GetUint, .uint t => some t
  | .GetUint8, .uint8 t => some t
  | .GetUint16, .uint16 t => some t
  | .GetUint32, .uint32 t => some t
  | .GetUint64, .uint64 t => some t
  | .GetBool, .bool t => some t
  | _, _ => none

/-- The value stored under `key`, if the key is present; a nil map has no
keys. -/
def SyncMap.lookup (d : SyncMap) (key : Any) : Option Any :=
  d.item.bind fun m => m.lookup key

/-- A call on a store. -/
inductive Op where
  | Set (key value : Any)
  | Clear
  | Reset
  | Get (key : Any)
  | typed (g : Getter) (key : Any) (dflt : List g.T)

/-- What the caller of an operation sees: nothing, the pair returned by
`Get`, or the value returned by a typed getter (boxed, so that results of
different getters share a type). -/
inductive Obs where
  | done
  | got (value : Any) (exist : Bool)
  | typed (value : Any)
deriving DecidableEq, Repr

/-- One operation on a `SyncMap`: what is observed, and the store left. -/
def SyncMap.apply (d : SyncMap) : Op → Except Fault (Obs × SyncMap)
  | .Set key value => (SyncMap.Set d key value).map fun d1 => (.done, d1)
  | .Clear => (SyncMap.Clear d).map fun d1 => (.done, d1)
  | .Reset => (SyncMap.Reset d).map fun d1 => (.done, d1)
  | .Get key => (SyncMap.Get d key).map fun r => (.got r.1.1 r.1.2, r.2)
  | .typed g key dflt => (g.call d key dflt).map fun r => (.typed (g.box r.1), r.2)

/-- A sequence of operations on a `SyncMap`, one after the other. -/
def SyncMap.run : SyncMap → List Op → Except Fault (List Obs × SyncMap)
  | d, [] => .ok ([], d)
  | d, op :: ops =>
    (SyncMap.apply d op).bind fun r =>
      (SyncMap.run r.2 ops).map fun rs => (r.1 :: rs.1, rs.2)

/-! ### Goroutines calling `Set`

Goroutine `i` runs `Set` on the `i`-th pair of `calls`, one statement of `Set`
per step; `pc i` counts the statements it has executed, and `4` means that
its call has returned.  A schedule names the goroutine that is given the next
step. -/

/-- The shared store and the program counter of every goroutine. -/
structure Config where
  store : SyncMap
  pc : ℕ → ℕ

/-- All goroutines about to call `Set` on the store `d`. -/
def Config.init (d : SyncMap) : Config := ⟨d, fun _ => 0⟩

/-- Goroutine `i` is given a step.  It executes its next statement; if it has
returned, if there is no goroutine `i` or if it waits for the lock, nothing
changes. -/
def stepGoroutine (calls : List (Any × Any)) (c : Config) (i : ℕ) : Except Fault Config :=
  match calls[i]? with
  | none => .ok c
  | some call =>
    if c.pc i < 4 then
      match SyncMap.setStep call.1 call.2 c.store (c.pc i) with
      | .ok s => .ok ⟨s, Function.update c.pc i (c.pc i + 1)⟩
      | .error .blocked => .ok c
      | .error f => .error f
    else .ok c

/-- Run the goroutines under a schedule. -/
def runSchedule (calls : List (Any × Any)) : Config → List ℕ → Except Fault Config
  | c, [] => .ok c
  | c, i :: rest => (stepGoroutine calls c i).bind fun c1 => runSchedule calls c1 rest

/-- Invariant of the goroutines calling `Set`: no one holds the lock for
reading; while the lock is free every goroutine is before its call or has
returned; while it is held exactly one goroutine is inside `Set`, and the map
is allocated once that goroutine is past the allocation; and the pair of every
goroutine past its assignment is in the map. -/
def Config.Inv (calls : List (Any × Any)) (c : Config) : Prop :=
  c.store.mu.readers = 0 ∧
  (c.store.mu.writer = false → ∀ i, i < calls.length → c.pc i = 0 ∨ c.pc i = 4) ∧
  (c.store.mu.writer = true → ∃ h, h < calls.length ∧
    (c.pc h = 1 ∨ c.pc h = 2 ∨ c.pc h = 3) ∧
    (2 ≤ c.pc h → c.store.item.isSome = true) ∧
    ∀ i, i < calls.length → i ≠ h → c.pc i = 0 ∨ c.pc i = 4) ∧
  (∀ i call, calls[i]? = some call → 3 ≤ c.pc i → c.store.lookup call.1 = some call.2)

/-! ### The store of the specification's design note -/

/-- The alternative store of the specification's design notes, written from
the words of the specification: its map is allocated at construction and is
never nil. -/
structure AllocStore where
  item : GoMap

/-- Alternative store: construction allocates the map. -/
def AllocStore.new : AllocStore := ⟨GoMap.empty⟩

/-- Alternative store: `Set` inserts or overwrites. -/
def AllocStore.Set (s : AllocStore) (key value : Any) : AllocStore :=
  ⟨s.item.insert key value⟩

/-- Alternative store: `Get` returns `(value, true)` if present, else
`(nil, false)`. -/
def AllocStore.Get (s : AllocStore) (key : Any) : Any × Bool :=
  match s.item.lookup key with
  | some v => (v, true)
  | none => (.nil, false)

/-- Alternative store: `Clear` replaces the map with a fresh empty one. -/
def AllocStore.Clear (_s : AllocStore) : AllocStore := ⟨GoMap.empty⟩

/-- Alternative store: a typed getter looks up the key; if it is absent
it returns the supplied default, or the zero value if none was given; if it is
present it returns the value when the downcast succeeds, and the default or
the zero value when it fails. -/
def AllocStore.typed (s : AllocStore) (g : Getter) (key : Any) (dflt : List g.T) : g.T :=
  match s.item.lookup key with
  | none => dflt.head?.getD g.zero
  | some x =>
    match g.unbox x with
    | some t => t
    | none => dflt.head?.getD g.zero

/-- Alternative store: one operation. -/
def AllocStore.apply (s : AllocStore) : Op → Obs × AllocStore
  | .Set key value => (.done, s.Set key value)
  | .Clear => (.done, s.Clear)
  | .Reset => (.done, s.Clear)
  | .Get key => (.got (s.Get key).1 (s.Get key).2, s)
  | .typed g key dflt => (.typed (g.box (s.typed g key dflt)), s)

/-- Alternative store: a sequence of operations, one after the other. -/
def AllocStore.run : AllocStore → List Op → List Obs × AllocStore
  | s, [] => ([], s)
  | s, op :: ops =>
    ((s.apply op).1 :: ((s.apply op).2.run ops).1, ((s.apply op).2.run ops).2)

/-- The store as a call of `Set` leaves it, whether the call returns or not:
the statements of `Set` are executed in order up to the first that fails. -/
def SyncMap.setLeaves (d : SyncMap) (key value : Any) : SyncMap :=
  match SyncMap.setStep key value d 0 with
  | .error _ => d
  | .ok d1 =>
    match SyncMap.setStep key value d1 1 with
    | .error _ => d1
    | .ok d2 =>
      match SyncMap.setStep key value d2 2 with
      | .error _ => d2
      | .ok d3 =>
        match SyncMap.setStep key value d3 3 with
        | .error _ => d3
        | .ok d4 => d4

/-- A store is reachable when some sequence of operations, each of which
returns, leads to it from the zero value. -/
def SyncMap.Reachable (d : SyncMap) : Prop :=
  ∃ (ops : List Op) (obs : List Obs), SyncMap.run SyncMap.new ops = .ok (obs, d)

/-- The accessor without the test `|| v.IsEmpty()`: the default is
substituted exactly when the parse error is not nil. -/
def IntAccessor.callOnErrorOnly (a : IntAccessor) (arch : Arch) (v : Value)
    (dflt : List a.T) : Except Panic (a.T × Option NumError) :=
  if (a.parse arch v).2.isSome then
    if dflt.length > 0 then (index dflt 0).map (fun d => (d, (a.parse arch v).2))
    else .ok (a.parse arch v)
  else .ok (a.parse arch v)

/-! ## Lemmas on `strconv.ParseUint` -/

theorem isDigit_iff (c : Char) : c.isDigit = true ↔ 48 ≤ c.toNat ∧ c.toNat ≤ 57 := by
  simp only [Char.isDigit, Char.toNat, ge_iff_le, Bool.and_eq_true, decide_eq_true_eq]
  exact Iff.rfl

theorem digitOf_isDigit {c : Char} (h : c.isDigit = true) :
    digitOf c = some (c.toNat - 48) := by
  have h2 := (isDigit_iff c).1 h
  simp [digitOf, h2]

theorem digitOf_not_isDigit {c : Char} (h : c.isDigit = false) :
    digitOf c = none ∨ ∃ d, digitOf c = some d ∧ 10 ≤ d := by
  have h2 : ¬ (48 ≤ c.toNat ∧ c.toNat ≤ 57) := by
    intro h3
    have := (isDigit_iff c).2 h3
    simp [h] at this
  unfold digitOf
  simp only [h2, if_false]
  by_cases h4 : 97 ≤ lower c.toNat ∧ lower c.toNat ≤ 122
  · right
    refine ⟨(lower c.toNat - 97 + 10) % 256, by simp [h4], ?_⟩
    omega
  · left
    simp [h4]

theorem le_digitsValueFrom (cs : List Char) (n : ℕ) : n ≤ digitsValueFrom n cs := by
  induction cs generalizing n with
  | nil => simp [digitsValueFrom]
  | cons c cs ih =>
    have := ih (n * 10 + (c.toNat - 48))
    simp only [digitsValueFrom, List.foldl_cons] at this ⊢
    omega

theorem digitsValueFrom_cons (c : Char) (cs : List Char) (n : ℕ) :
    digitsValueFrom n (c :: cs) = digitsValueFrom (n * 10 + (c.toNat - 48)) cs := by
  simp [digitsValueFrom]

/-- On a run of digits the loop of `ParseUint` computes the number denoted,
or stops with a range error as soon as the number exceeds `maxVal`. -/
theorem parseUintLoop_digits (s0 : String) (maxVal : ℕ) (hM : maxVal < 2 ^ 64) :
    ∀ (cs : List Char) (n : ℕ), cs.all Char.isDigit = true → n ≤ maxVal →
      parseUintLoop s0 (maxUint64 / 10 + 1) maxVal n cs =
        if digitsValueFrom n cs ≤ maxVal then (digitsValueFrom n cs, none)
        else (maxVal, some (rangeError fnParseUint s0)) := by
  intro cs
  induction cs with
  | nil => intro n _ hn; simp [parseUintLoop, digitsValueFrom, hn]
  | cons c cs ih =>
    intro n hall hn
    simp only [List.all_cons, Bool.and_eq_true] at hall
    obtain ⟨hc, hcs⟩ := hall
    have hd := (isDigit_iff c).1 hc
    have hmono := le_digitsValueFrom cs (n * 10 + (c.toNat - 48))
    rw [digitsValueFrom_cons]
    simp only [parseUintLoop, digitOf_isDigit hc, maxUint64]
    norm_num at hM ⊢
    have hd10 : ¬ (10 ≤ c.toNat - 48) := by omega
    simp only [hd10, if_false]
    by_cases hcut : 1844674407370955162 ≤ n
    · simp only [hcut, if_true]
      rw [if_neg (by omega)]
    · simp only [hcut, if_false]
      have ih1 := ih (n * 10 + (c.toNat - 48)) hcs
      norm_num [maxUint64] at ih1
      have hlt : n * 10 % 18446744073709551616 = n * 10 := by omega
      rw [hlt]
      by_cases hov : n * 10 + (c.toNat - 48) ≤ maxVal
      · have heq : (n * 10 + (c.toNat - 48)) % 18446744073709551616
            = n * 10 + (c.toNat - 48) := by omega
        rw [heq, if_neg (by omega)]
        exact ih1 hov
      · rw [if_pos (by omega), if_neg (by omega)]

/-- When some character is not a digit the loop of `ParseUint` fails: with a
syntax error and value `0`, or, if the digits read before already exceed
`maxVal`, with a range error and value `maxVal`. -/
theorem parseUintLoop_not_digits (s0 : String) (cutoff maxVal : ℕ) :
    ∀ (cs : List Char) (n : ℕ), cs.all Char.isDigit = false →
      parseUintLoop s0 cutoff maxVal n cs = (0, some (syntaxError fnParseUint s0)) ∨
      parseUintLoop s0 cutoff maxVal n cs = (maxVal, some (rangeError fnParseUint s0)) := by
  intro cs
  induction cs with
  | nil => intro n h; simp at h
  | cons c cs ih =>
    intro n hall
    cases hc : c.isDigit with
    | false =>
      rcases digitOf_not_isDigit hc with h | ⟨d, h, hd⟩
      · left; simp [parseUintLoop, h]
      · left; simp [parseUintLoop, h, hd]
    | true =>
      have hcs : cs.all Char.isDigit = false := by
        simpa [List.all_cons, hc] using hall
      have hd := (isDigit_iff c).1 hc
      have hd10 : ¬ (10 ≤ c.toNat - 48) := by omega
      simp only [parseUintLoop, digitOf_isDigit hc, ge_iff_le, gt_iff_lt, hd10, if_false]
      split_ifs
      · right; rfl
      · right; rfl
      · exact ih _ hcs

theorem maxVal_eq (b : ℕ) (h1 : 1 ≤ b) (h64 : b ≤ 64) :
    ((1 <<< b) % 2 ^ 64 + 2 ^ 64 - 1) % 2 ^ 64 = 2 ^ b - 1 := by
  interval_cases b <;> rfl

theorem string_mk_eq_empty (cs : List Char) : String.mk cs = "" ↔ cs = [] := by
  constructor
  · intro h; exact congrArg String.data h
  · intro h; rw [h]

theorem string_eq_empty (s : String) : s = "" ↔ s.data = [] := by
  cases s; exact string_mk_eq_empty _

theorem ParseUint_zero (arch : Arch) (s : String) :
    ParseUint arch s 0 = ParseUint arch s (IntSize arch) := by
  cases arch <;> simp [ParseUint, IntSize, Arch.uintTopBit]

/-- Result of `ParseUint` on an unsigned literal: the number denoted when it fits in
`b` bits, otherwise the largest `b`-bit number and a range error. -/
theorem ParseUint_literal (arch : Arch) (s : String) (b : ℕ) (h1 : 1 ≤ b) (h64 : b ≤ 64)
    (hlit : isUintLiteral s = true) :
    ParseUint arch s b =
      if digitsValue s.data ≤ 2 ^ b - 1 then (digitsValue s.data, none)
      else (2 ^ b - 1, some (rangeError fnParseUint s)) := by
  simp only [isUintLiteral, isDigits, Bool.and_eq_true, Bool.not_eq_true',
    List.isEmpty_eq_false] at hlit
  have hne : ¬ s = "" := by rw [string_eq_empty]; exact hlit.1
  have hb0 : ¬ b = 0 := by omega
  have hb64 : ¬ b > 64 := by omega
  have hM : 2 ^ b - 1 < 2 ^ 64 := by
    have : 2 ^ b ≤ 2 ^ 64 := Nat.pow_le_pow_right (by norm_num) h64
    have : 0 < 2 ^ b := Nat.two_pow_pos b
    omega
  simp only [ParseUint, hne, hb0, hb64, if_false, maxVal_eq b h1 h64]
  exact parseUintLoop_digits s (2 ^ b - 1) hM s.data 0 hlit.2 (Nat.zero_le _)

/-- On anything that is not an unsigned literal `ParseUint` fails. -/
theorem ParseUint_not_literal (arch : Arch) (s : String) (b : ℕ) (h1 : 1 ≤ b)
    (h64 : b ≤ 64) (hlit : isUintLiteral s = false) :
    ParseUint arch s b = (0, some (syntaxError fnParseUint s)) ∨
    ParseUint arch s b = (2 ^ b - 1, some (rangeError fnParseUint s)) := by
  by_cases hne : s = ""
  · left; simp [ParseUint, hne]
  · have hb0 : ¬ b = 0 := by omega
    have hb64 : ¬ b > 64 := by omega
    have hdata : s.data ≠ [] := by rwa [string_eq_empty] at hne
    have hall : s.data.all Char.isDigit = false := by
      simp only [isUintLiteral, isDigits, Bool.and_eq_false_iff, Bool.not_eq_false',
        List.isEmpty_iff] at hlit
      rcases hlit with h | h
      · exact absurd h hdata
      · exact h
    simp only [ParseUint, hne, hb0, hb64, if_false, maxVal_eq b h1 h64]
    exact parseUintLoop_not_digits s _ _ s.data 0 hall

/-! ## Lemmas on `strconv.ParseInt` -/

theorem cutoff_eq (b : ℕ) (h1 : 1 ≤ b) (h64 : b ≤ 64) :
    (1 <<< (b - 1)) % 2 ^ 64 = 2 ^ (b - 1) := by
  interval_cases b <;> rfl

theorem isIntLiteral_eq (s : String) :
    isIntLiteral s = isDigits (leadingSign s.data).2 := by
  unfold isIntLiteral leadingSign
  split <;> rfl

theorem intLiteralValue_eq (s : String) :
    intLiteralValue s =
      if (leadingSign s.data).1 = true then -(digitsValue (leadingSign s.data).2 : ℤ)
      else (digitsValue (leadingSign s.data).2 : ℤ) := by
  unfold intLiteralValue leadingSign
  split <;> simp

theorem toIntN_64 (n : ℤ) :
    toIntN 64 n = (n + 9223372036854775808) % 18446744073709551616 - 9223372036854775808 := by
  simp only [toIntN]
  norm_num

/-- The range check and sign fix-up at the end of `ParseInt`, for a cutoff
`C = 2^(bitSize-1)` and a magnitude `un` of at most `bitSize` bits. -/
theorem parseInt_tail (C un : ℕ) (neg : Bool) (e : NumError) (hC2 : 2 ≤ C)
    (hC : C ≤ 9223372036854775808) (hun : un + 1 ≤ 2 * C) :
    (if (!neg) = true ∧ un ≥ C then (toIntN 64 ((C : ℤ) - 1), some e)
      else if neg = true ∧ un > C then (toIntN 64 (-(toIntN 64 C)), some e)
      else (if neg = true then toIntN 64 (-(toIntN 64 un)) else toIntN 64 un, none)) =
    (if neg = true ∧ un > C then (-(C : ℤ), some e)
      else if neg = false ∧ un ≥ C then ((C : ℤ) - 1, some e)
      else (if neg = true then -(un : ℤ) else (un : ℤ), none)) := by
  cases neg
  · simp only [Bool.not_false, true_and, Bool.false_eq_true, false_and, if_false, toIntN_64]
    by_cases h : un ≥ C
    · rw [if_pos h, if_pos h]
      refine Prod.ext ?_ rfl
      show _ = _
      omega
    · rw [if_neg h, if_neg h]
      refine Prod.ext ?_ rfl
      show _ = _
      omega
  · simp only [Bool.not_true, Bool.false_eq_true, false_and, if_false, true_and, if_true,
      Bool.true_eq_false, toIntN_64]
    by_cases h : un > C
    · rw [if_pos h, if_pos h]
      refine Prod.ext ?_ rfl
      show _ = _
      omega
    · rw [if_neg h, if_neg h]
      refine Prod.ext ?_ rfl
      show _ = _
      omega

theorem ParseInt_zero (arch : Arch) (s : String) :
    ParseInt arch s 0 = ParseInt arch s (IntSize arch) := by
  cases arch <;> simp [ParseInt, ParseUint_zero, IntSize, Arch.uintTopBit]

theorem two_pow_pred (b : ℕ) (h1 : 1 ≤ b) : 2 * 2 ^ (b - 1) = 2 ^ b := by
  obtain ⟨k, rfl⟩ : ∃ k, b = k + 1 := ⟨b - 1, by omega⟩
  simp [pow_succ, Nat.mul_comm]

theorem two_pow_pred_bounds (b : ℕ) (h2 : 2 ≤ b) (h64 : b ≤ 64) :
    2 ≤ 2 ^ (b - 1) ∧ 2 ^ (b - 1) ≤ 9223372036854775808 := by
  constructor
  · calc 2 = 2 ^ 1 := by norm_num
      _ ≤ 2 ^ (b - 1) := Nat.pow_le_pow_right (by norm_num) (by omega)
  · calc 2 ^ (b - 1) ≤ 2 ^ 63 := Nat.pow_le_pow_right (by norm_num) (by omega)
      _ = 9223372036854775808 := by norm_num

/-- Result of `ParseInt` on an optional sign followed by digits: a range error with
the nearest bound when the number does not fit in `b` bits, the number
otherwise. -/
theorem ParseInt_digits (arch : Arch) (s : String) (b : ℕ) (h2 : 2 ≤ b) (h64 : b ≤ 64)
    (hd : isDigits (leadingSign s.data).2 = true) :
    ParseInt arch s b =
      if (leadingSign s.data).1 = true ∧ digitsValue (leadingSign s.data).2 > 2 ^ (b - 1) then
        (-((2 ^ (b - 1) : ℕ) : ℤ), some (rangeError fnParseInt s))
      else if (leadingSign s.data).1 = false ∧
          digitsValue (leadingSign s.data).2 ≥ 2 ^ (b - 1) then
        (((2 ^ (b - 1) : ℕ) : ℤ) - 1, some (rangeError fnParseInt s))
      else
        (if (leadingSign s.data).1 = true then -(digitsValue (leadingSign s.data).2 : ℤ)
          else (digitsValue (leadingSign s.data).2 : ℤ), none) := by
  have hne : ¬ s = "" := by
    intro h
    rw [h] at hd
    simp [leadingSign, isDigits] at hd
  have hb0 : ¬ b = 0 := by omega
  have hlit : isUintLiteral (String.mk (leadingSign s.data).2) = true := hd
  obtain ⟨hC2, hC⟩ := two_pow_pred_bounds b h2 h64
  have hpow := two_pow_pred b (by omega)
  have hpos : 0 < 2 ^ b := Nat.two_pow_pos b
  simp only [ParseInt, hne, hb0, if_false, cutoff_eq b (by omega) h64,
    ParseUint_literal arch _ b (by omega) h64 hlit]
  generalize (leadingSign s.data).1 = neg
  generalize digitsValue (leadingSign s.data).2 = dv
  by_cases hfit : dv ≤ 2 ^ b - 1
  · simp only [hfit, if_true, Option.filter]
    exact parseInt_tail (2 ^ (b - 1)) dv neg _ hC2 hC (by omega)
  · simp only [hfit, if_false, Option.filter, rangeError, bne_self_eq_false,
      Bool.false_eq_true, if_false]
    have := parseInt_tail (2 ^ (b - 1)) (2 ^ b - 1) neg ⟨fnParseInt, s, .ErrRange⟩ hC2 hC
      (by omega)
    rw [this]
    have h1 : 2 ^ b - 1 > 2 ^ (b - 1) := by omega
    have h3 : dv > 2 ^ (b - 1) := by omega
    cases neg <;> simp [h1, h3, le_of_lt h1, le_of_lt h3]

/-- On anything else `ParseInt` fails: a syntax error with value `0`, or a
range error with a bound when the digits read before the offending character
already overflow. -/
theorem ParseInt_not_digits (arch : Arch) (s : String) (b : ℕ) (h2 : 2 ≤ b) (h64 : b ≤ 64)
    (hd : isDigits (leadingSign s.data).2 = false) :
    ParseInt arch s b = (0, some (syntaxError fnParseInt s)) ∨
    ParseInt arch s b = (((2 ^ (b - 1) : ℕ) : ℤ) - 1, some (rangeError fnParseInt s)) ∨
    ParseInt arch s b = (-((2 ^ (b - 1) : ℕ) : ℤ), some (rangeError fnParseInt s)) := by
  by_cases hne : s = ""
  · left; simp [ParseInt, hne]
  · have hb0 : ¬ b = 0 := by omega
    have hlit : isUintLiteral (String.mk (leadingSign s.data).2) = false := hd
    obtain ⟨hC2, hC⟩ := two_pow_pred_bounds b h2 h64
    have hpow := two_pow_pred b (by omega)
    have hpos : 0 < 2 ^ b := Nat.two_pow_pos b
    simp only [ParseInt, hne, hb0, if_false, cutoff_eq b (by omega) h64]
    rcases ParseUint_not_literal arch _ b (by omega) h64 hlit with h | h
    · left
      simp [h, Option.filter, syntaxError]
    · right
      simp only [h, Option.filter, rangeError, bne_self_eq_false, Bool.false_eq_true, if_false]
      have := parseInt_tail (2 ^ (b - 1)) (2 ^ b - 1) (leadingSign s.data).1
        ⟨fnParseInt, s, .ErrRange⟩ hC2 hC (by omega)
      rw [this]
      have h1 : 2 ^ b - 1 > 2 ^ (b - 1) := by omega
      cases (leadingSign s.data).1 <;> simp [h1, le_of_lt h1]

/-! ## The accessors in terms of their `strconv` call -/

/-- Every integer accessor has the same shape: on a parse error or an empty
receiver it returns the first default when there is one, and otherwise the
converted result of the parse together with the parse error. -/
theorem call_eq (a : IntAccessor) (arch : Arch) (v : Value) (dflt : List a.T) :
    a.call arch v dflt =
      if (a.parse arch v).2.isSome = true ∨ v.IsEmpty = true then
        if dflt.length > 0 then (index dflt 0).map (fun d => (d, (a.parse arch v).2))
        else .ok (a.parse arch v)
      else .ok (a.parse arch v) := by
  cases a <;> rfl

theorem toIntN_id (w : ℕ) (x : ℤ) (h1 : 1 ≤ w) (hlo : -(((2 ^ (w - 1) : ℕ) : ℤ)) ≤ x)
    (hhi : x ≤ ((2 ^ (w - 1) : ℕ) : ℤ) - 1) : toIntN w x = x := by
  have hpow := two_pow_pred w h1
  have hcast : (2 : ℤ) ^ (w - 1) = ((2 ^ (w - 1) : ℕ) : ℤ) := by push_cast; rfl
  have hcast2 : (2 : ℤ) ^ w = ((2 ^ w : ℕ) : ℤ) := by push_cast; rfl
  unfold toIntN
  rw [hcast, hcast2, ← hpow]
  generalize 2 ^ (w - 1) = C at *
  push_cast
  rw [Int.emod_eq_of_lt (by omega) (by omega)]
  omega

theorem toUintN_id (w n : ℕ) (h : n ≤ 2 ^ w - 1) : toUintN w n = n := by
  have hpos : 0 < 2 ^ w := Nat.two_pow_pos w
  exact Nat.mod_eq_of_lt (by omega)

theorem IntSize_bounds (arch : Arch) : 2 ≤ IntSize arch ∧ IntSize arch ≤ 64 := by
  cases arch <;> decide

/-- Result of `ParseInt` on a signed literal, in the vocabulary of the specification. -/
theorem ParseInt_literal (arch : Arch) (s : String) (b : ℕ) (h2 : 2 ≤ b) (h64 : b ≤ 64)
    (hlit : isIntLiteral s = true) :
    ParseInt arch s b =
      if intLiteralValue s < -((2 ^ (b - 1) : ℕ) : ℤ) then
        (-((2 ^ (b - 1) : ℕ) : ℤ), some (rangeError fnParseInt s))
      else if ((2 ^ (b - 1) : ℕ) : ℤ) - 1 < intLiteralValue s then
        (((2 ^ (b - 1) : ℕ) : ℤ) - 1, some (rangeError fnParseInt s))
      else (intLiteralValue s, none) := by
  rw [isIntLiteral_eq] at hlit
  rw [ParseInt_digits arch s b h2 h64 hlit, intLiteralValue_eq]
  generalize (leadingSign s.data).1 = neg
  generalize digitsValue (leadingSign s.data).2 = dv
  obtain ⟨hC2, _⟩ := two_pow_pred_bounds b h2 h64
  generalize 2 ^ (b - 1) = C at *
  cases neg
  · have h1 : ¬ ((dv : ℤ) < -(C : ℤ)) := by omega
    simp only [Bool.false_eq_true, false_and, if_false, true_and, h1]
    by_cases h : dv ≥ C
    · rw [if_pos h, if_pos (by omega)]
    · rw [if_neg h, if_neg (by omega)]
  · have h1 : ¬ ((C : ℤ) - 1 < -(dv : ℤ)) := by omega
    simp only [true_and, Bool.true_eq_false, false_and, if_false, if_true, h1]
    by_cases h : dv > C
    · rw [if_pos h, if_pos (by omega)]
    · rw [if_neg h, if_neg (by omega)]

theorem signed_parse_literal (arch : Arch) (s : String) (b : ℕ) (h2 : 2 ≤ b) (h64 : b ≤ 64)
    (hlit : isIntLiteral s = true) :
    (ParseInt arch s b).2 =
      (if intLiteralValue s < -((2 ^ (b - 1) : ℕ) : ℤ) ∨
          ((2 ^ (b - 1) : ℕ) : ℤ) - 1 < intLiteralValue s then
        some (rangeError fnParseInt s) else none) ∧
    toIntN b (ParseInt arch s b).1 =
      (if intLiteralValue s < -((2 ^ (b - 1) : ℕ) : ℤ) then -((2 ^ (b - 1) : ℕ) : ℤ)
        else if ((2 ^ (b - 1) : ℕ) : ℤ) - 1 < intLiteralValue s then
          ((2 ^ (b - 1) : ℕ) : ℤ) - 1
        else intLiteralValue s) ∧
    (ParseInt arch s b).1 =
      (if intLiteralValue s < -((2 ^ (b - 1) : ℕ) : ℤ) then -((2 ^ (b - 1) : ℕ) : ℤ)
        else if ((2 ^ (b - 1) : ℕ) : ℤ) - 1 < intLiteralValue s then
          ((2 ^ (b - 1) : ℕ) : ℤ) - 1
        else intLiteralValue s) := by
  obtain ⟨hC2, _⟩ := two_pow_pred_bounds b h2 h64
  have hid := toIntN_id b
  rw [ParseInt_literal arch s b h2 h64 hlit]
  generalize 2 ^ (b - 1) = C at *
  generalize intLiteralValue s = v
  by_cases hlo : v < -(C : ℤ)
  · simp only [hlo, if_true, true_or, true_and]
    exact ⟨hid _ (by omega) (by omega) (by omega), trivial⟩
  · by_cases hhi : (C : ℤ) - 1 < v
    · simp only [hlo, hhi, if_false, if_true, or_true, true_and]
      exact ⟨hid _ (by omega) (by omega) (by omega), trivial⟩
    · simp only [hlo, hhi, if_false, or_self, true_and]
      exact ⟨hid _ (by omega) (by omega) (by omega), trivial⟩

theorem unsigned_parse_literal (arch : Arch) (s : String) (b : ℕ) (h1 : 1 ≤ b)
    (h64 : b ≤ 64) (hlit : isUintLiteral s = true) :
    (ParseUint arch s b).2 =
      (if uintLiteralValue s < 0 ∨ ((2 ^ b : ℕ) : ℤ) - 1 < uintLiteralValue s then
        some (rangeError fnParseUint s) else none) ∧
    ((toUintN b (ParseUint arch s b).1 : ℕ) : ℤ) =
      (if uintLiteralValue s < 0 then 0
        else if ((2 ^ b : ℕ) : ℤ) - 1 < uintLiteralValue s then ((2 ^ b : ℕ) : ℤ) - 1
        else uintLiteralValue s) ∧
    (((ParseUint arch s b).1 : ℕ) : ℤ) =
      (if uintLiteralValue s < 0 then 0
        else if ((2 ^ b : ℕ) : ℤ) - 1 < uintLiteralValue s then ((2 ^ b : ℕ) : ℤ) - 1
        else uintLiteralValue s) := by
  have hpos : 0 < 2 ^ b := Nat.two_pow_pos b
  have hid := toUintN_id b
  rw [ParseUint_literal arch s b h1 h64 hlit]
  unfold uintLiteralValue
  generalize digitsValue s.data = dv
  generalize 2 ^ b = P at *
  have h0 : ¬ ((dv : ℤ) < 0) := by omega
  by_cases hfit : dv ≤ P - 1
  · have h3 : ¬ ((P : ℤ) - 1 < (dv : ℤ)) := by omega
    simp only [hfit, h0, h3, if_true, if_false, or_self, true_and, hid dv hfit, and_self]
  · have h3 : (P : ℤ) - 1 < (dv : ℤ) := by omega
    simp only [hfit, h0, h3, if_true, if_false, or_true, true_and, hid (P - 1) (le_refl _)]
    omega

theorem signed_parse_not_literal (arch : Arch) (s : String) (b : ℕ) (h2 : 2 ≤ b)
    (h64 : b ≤ 64) (hlit : isIntLiteral s = false) :
    ((ParseInt arch s b).2 = some (syntaxError fnParseInt s) ∧
      (ParseInt arch s b).1 = 0 ∧ toIntN b (ParseInt arch s b).1 = 0) ∨
    ((ParseInt arch s b).2 = some (rangeError fnParseInt s) ∧
      (((ParseInt arch s b).1 = ((2 ^ (b - 1) : ℕ) : ℤ) - 1 ∧
          toIntN b (ParseInt arch s b).1 = ((2 ^ (b - 1) : ℕ) : ℤ) - 1) ∨
        ((ParseInt arch s b).1 = -((2 ^ (b - 1) : ℕ) : ℤ) ∧
          toIntN b (ParseInt arch s b).1 = -((2 ^ (b - 1) : ℕ) : ℤ)))) := by
  obtain ⟨hC2, _⟩ := two_pow_pred_bounds b h2 h64
  have hid := toIntN_id b
  rw [isIntLiteral_eq] at hlit
  rcases ParseInt_not_digits arch s b h2 h64 hlit with h | h | h
  · left
    rw [h]
    exact ⟨rfl, rfl, hid 0 (by omega) (by omega) (by omega)⟩
  · right
    rw [h]
    exact ⟨rfl, Or.inl ⟨rfl, hid _ (by omega) (by omega) (by omega)⟩⟩
  · right
    rw [h]
    exact ⟨rfl, Or.inr ⟨rfl, hid _ (by omega) (by omega) (by omega)⟩⟩

theorem unsigned_parse_not_literal (arch : Arch) (s : String) (b : ℕ) (h1 : 1 ≤ b)
    (h64 : b ≤ 64) (hlit : isUintLiteral s = false) :
    ((ParseUint arch s b).2 = some (syntaxError fnParseUint s) ∧
      (((ParseUint arch s b).1 : ℕ) : ℤ) = 0 ∧
      ((toUintN b (ParseUint arch s b).1 : ℕ) : ℤ) = 0) ∨
    ((ParseUint arch s b).2 = some (rangeError fnParseUint s) ∧
      (((ParseUint arch s b).1 : ℕ) : ℤ) = ((2 ^ b : ℕ) : ℤ) - 1 ∧
      ((toUintN b (ParseUint arch s b).1 : ℕ) : ℤ) = ((2 ^ b : ℕ) : ℤ) - 1) := by
  have hpos : 0 < 2 ^ b := Nat.two_pow_pos b
  have hid := toUintN_id b
  rcases ParseUint_not_literal arch s b h1 h64 hlit with h | h
  · left
    rw [h]
    refine ⟨rfl, rfl, ?_⟩
    rw [hid 0 (Nat.zero_le _)]
    rfl
  · right
    rw [h]
    have hcast : (((2 ^ b - 1 : ℕ) : ℕ) : ℤ) = ((2 ^ b : ℕ) : ℤ) - 1 := by omega
    refine ⟨rfl, hcast, ?_⟩
    show ((toUintN b (2 ^ b - 1) : ℕ) : ℤ) = _
    rw [hid _ (le_refl _)]
    exact hcast

/-- What an accessor's `strconv` call yields on a literal of its signedness:
the number itself when it fits the result type, and otherwise a range error
together with the bound of the type on the side of the overflow. -/
theorem parse_literal (a : IntAccessor) (arch : Arch) (s : String)
    (hlit : a.isLiteral s = true) :
    (a.parse arch s).2 =
      (if a.literalValue s < a.minVal arch ∨ a.maxVal arch < a.literalValue s then
        some (rangeError a.fn s) else none) ∧
    a.toInt (a.parse arch s).1 =
      (if a.literalValue s < a.minVal arch then a.minVal arch
        else if a.maxVal arch < a.literalValue s then a.maxVal arch
        else a.literalValue s) := by
  obtain ⟨hI2, hI64⟩ := IntSize_bounds arch
  cases a <;>
    simp only [IntAccessor.parse, IntAccessor.minVal, IntAccessor.maxVal,
      IntAccessor.literalValue, IntAccessor.isLiteral, IntAccessor.signed, IntAccessor.fn,
      IntAccessor.toInt, IntAccessor.bits, ↓reduceIte, Bool.false_eq_true, ParseInt_zero,
      ParseUint_zero] at hlit ⊢
  case Int =>
    have h := signed_parse_literal arch s (IntSize arch) hI2 hI64 hlit
    exact ⟨h.1, h.2.1⟩
  case Int8 =>
    have h := signed_parse_literal arch s 8 (by decide) (by decide) hlit
    exact ⟨h.1, h.2.1⟩
  case Int16 =>
    have h := signed_parse_literal arch s 16 (by decide) (by decide) hlit
    exact ⟨h.1, h.2.1⟩
  case Int32 =>
    have h := signed_parse_literal arch s 32 (by decide) (by decide) hlit
    exact ⟨h.1, h.2.1⟩
  case Int64 =>
    have h := signed_parse_literal arch s 64 (by decide) (by decide) hlit
    exact ⟨h.1, h.2.2⟩
  case Uint =>
    have h := unsigned_parse_literal arch s (IntSize arch) (by omega) hI64 hlit
    exact ⟨h.1, h.2.1⟩
  case Uint8 =>
    have h := unsigned_parse_literal arch s 8 (by decide) (by decide) hlit
    exact ⟨h.1, h.2.1⟩
  case Uint16 =>
    have h := unsigned_parse_literal arch s 16 (by decide) (by decide) hlit
    exact ⟨h.1, h.2.1⟩
  case Uint32 =>
    have h := unsigned_parse_literal arch s 32 (by decide) (by decide) hlit
    exact ⟨h.1, h.2.1⟩
  case Uint64 =>
    have h := unsigned_parse_literal arch s 64 (by decide) (by decide) hlit
    exact ⟨h.1, h.2.2⟩

/-- What an accessor's `strconv` call yields on a string that is not a
literal of its signedness: a syntax error with the number `0`, or a range
error with a bound of the result type. -/
theorem parse_not_literal (a : IntAccessor) (arch : Arch) (s : String)
    (hlit : a.isLiteral s = false) :
    ((a.parse arch s).2 = some (syntaxError a.fn s) ∧ a.toInt (a.parse arch s).1 = 0) ∨
    ((a.parse arch s).2 = some (rangeError a.fn s) ∧
      (a.toInt (a.parse arch s).1 = a.maxVal arch ∨
        a.toInt (a.parse arch s).1 = a.minVal arch)) := by
  obtain ⟨hI2, hI64⟩ := IntSize_bounds arch
  cases a <;>
    simp only [IntAccessor.parse, IntAccessor.minVal, IntAccessor.maxVal,
      IntAccessor.isLiteral, IntAccessor.signed, IntAccessor.fn,
      IntAccessor.toInt, IntAccessor.bits, ↓reduceIte, Bool.false_eq_true, ParseInt_zero,
      ParseUint_zero] at hlit ⊢
  case Int =>
    rcases signed_parse_not_literal arch s (IntSize arch) hI2 hI64 hlit with h | ⟨h, g | g⟩
    · exact Or.inl ⟨h.1, h.2.2⟩
    · exact Or.inr ⟨h, Or.inl g.2⟩
    · exact Or.inr ⟨h, Or.inr g.2⟩
  case Int8 =>
    rcases signed_parse_not_literal arch s 8 (by decide) (by decide) hlit with h | ⟨h, g | g⟩
    · exact Or.inl ⟨h.1, h.2.2⟩
    · exact Or.inr ⟨h, Or.inl g.2⟩
    · exact Or.inr ⟨h, Or.inr g.2⟩
  case Int16 =>
    rcases signed_parse_not_literal arch s 16 (by decide) (by decide) hlit with h | ⟨h, g | g⟩
    · exact Or.inl ⟨h.1, h.2.2⟩
    · exact Or.inr ⟨h, Or.inl g.2⟩
    · exact Or.inr ⟨h, Or.inr g.2⟩
  case Int32 =>
    rcases signed_parse_not_literal arch s 32 (by decide) (by decide) hlit with h | ⟨h, g | g⟩
    · exact Or.inl ⟨h.1, h.2.2⟩
    · exact Or.inr ⟨h, Or.inl g.2⟩
    · exact Or.inr ⟨h, Or.inr g.2⟩
  case Int64 =>
    rcases signed_parse_not_literal arch s 64 (by decide) (by decide) hlit with h | ⟨h, g | g⟩
    · exact Or.inl ⟨h.1, h.2.1⟩
    · exact Or.inr ⟨h, Or.inl g.1⟩
    · exact Or.inr ⟨h, Or.inr g.1⟩
  case Uint =>
    rcases unsigned_parse_not_literal arch s (IntSize arch) (by omega) hI64 hlit with h | h
    · exact Or.inl ⟨h.1, h.2.2⟩
    · exact Or.inr ⟨h.1, Or.inl h.2.2⟩
  case Uint8 =>
    rcases unsigned_parse_not_literal arch s 8 (by decide) (by decide) hlit with h | h
    · exact Or.inl ⟨h.1, h.2.2⟩
    · exact Or.inr ⟨h.1, Or.inl h.2.2⟩
  case Uint16 =>
    rcases unsigned_parse_not_literal arch s 16 (by decide) (by decide) hlit with h | h
    · exact Or.inl ⟨h.1, h.2.2⟩
    · exact Or.inr ⟨h.1, Or.inl h.2.2⟩
  case Uint32 =>
    rcases unsigned_parse_not_literal arch s 32 (by decide) (by decide) hlit with h | h
    · exact Or.inl ⟨h.1, h.2.2⟩
    · exact Or.inr ⟨h.1, Or.inl h.2.2⟩
  case Uint64 =>
    rcases unsigned_parse_not_literal arch s 64 (by decide) (by decide) hlit with h | h
    · exact Or.inl ⟨h.1, h.2.1⟩
    · exact Or.inr ⟨h.1, Or.inl h.2.1⟩

/-- The `strconv` call of every accessor rejects the empty string with a
syntax error and the number `0`. -/
theorem parse_empty (a : IntAccessor) (arch : Arch) :
    (a.parse arch "").2 = some (syntaxError a.fn "") ∧ a.toInt (a.parse arch "").1 = 0 := by
  cases a <;> cases arch <;> exact ⟨rfl, rfl⟩

/-- An accessor's `strconv` call fails exactly when the receiver is not an
in-range literal of the accessor's signedness. -/
theorem parse_err_isSome_iff (a : IntAccessor) (arch : Arch) (s : String) :
    (a.parse arch s).2.isSome = true ↔ ¬ (a.isLiteral s = true ∧ a.inRange arch s) := by
  cases hlit : a.isLiteral s with
  | false =>
    rcases parse_not_literal a arch s hlit with h | h <;> simp [h.1]
  | true =>
    rw [(parse_literal a arch s hlit).1]
    unfold IntAccessor.inRange
    by_cases h : a.literalValue s < a.minVal arch ∨ a.maxVal arch < a.literalValue s
    · rw [if_pos h]
      simp only [Option.isSome_some, true_and, true_iff]
      omega
    · rw [if_neg h]
      simp only [Option.isSome_none, Bool.false_eq_true, true_and, false_iff, not_not]
      omega

theorem index_cons_zero {α : Type} (d : α) (rest : List α) :
    index (d :: rest) 0 = .ok d := by
  simp [index]

/-- With a default supplied, an accessor whose parse fails returns the first
default and the parse error. -/
theorem call_default_of_err (a : IntAccessor) (arch : Arch) (v : Value) (d : a.T)
    (rest : List a.T) (h : (a.parse arch v).2.isSome = true) :
    a.call arch v (d :: rest) = .ok (d, (a.parse arch v).2) := by
  rw [call_eq, if_pos (Or.inl h), if_pos (by simp), index_cons_zero]
  rfl

/-- Without a default an accessor returns the result of its parse. -/
theorem call_nil (a : IntAccessor) (arch : Arch) (v : Value) :
    a.call arch v [] = .ok (a.parse arch v) := by
  rw [call_eq]
  split_ifs with h1 h2
  · simp at h2
  · rfl
  · rfl

/-- No integer accessor panics. -/
theorem call_ok (a : IntAccessor) (arch : Arch) (v : Value) (dflt : List a.T) :
    ∃ r, a.call arch v dflt = .ok r := by
  cases dflt with
  | nil => exact ⟨_, call_nil a arch v⟩
  | cons d rest =>
    rw [call_eq]
    split_ifs with h1 h2
    · exact ⟨_, by rw [index_cons_zero]; rfl⟩
    · exact ⟨_, rfl⟩
    · exact ⟨_, rfl⟩

/-! ## `Values` -/

theorem foldl_append_singleton (items : List String) (acc : Values) :
    items.foldl (fun (v : Values) item => v ++ [(item : Value)]) acc = acc ++ items := by
  induction items generalizing acc with
  | nil => simp
  | cons x xs ih => simp [ih]

/-- The slice `NewValues` returns: `len(values)` empty values, then the items. -/
theorem NewValues_eq (values : List String) :
    NewValues values = List.replicate values.length ("" : Value) ++ values := by
  unfold NewValues
  exact foldl_append_singleton values _

/-- C1: `NewValues(["a","b"])` is not `["a","b"]`: it has length 4, starts with
two empty values, and its element at index 1 has `Text() == ""`, not `"b"`. -/
theorem NewValues_ab_prepends_empty_values :
    NewValues ["a", "b"] = ["", "", "a", "b"] ∧
    (NewValues ["a", "b"]).length = 4 ∧
    ((index (NewValues ["a", "b"]) 1).bind fun v => Value.Text v []) = .ok "" := by
  decide

/-! ## Integer accessors -/

/-- C2: for every integer accessor, every non-empty string that is a base-10
literal of the accessor's signedness whose number lies in the range of the
result type, and every list of defaults, the accessor returns `(n, nil)` where
`n` is the number the literal denotes; no default is used. -/
theorem intAccessor_parses_literal (a : IntAccessor) (arch : Arch) (s : Value)
    (dflt : List a.T) (hne : s ≠ "") (hlit : a.isLiteral s = true)
    (hrange : a.inRange arch s) :
    ∃ n : a.T, a.call arch s dflt = .ok (n, none) ∧ a.toInt n = a.literalValue s := by
  have herr : ¬ ((a.parse arch s).2.isSome = true) := by
    rw [parse_err_isSome_iff]
    exact not_not.2 ⟨hlit, hrange⟩
  have hempty : ¬ (Value.IsEmpty s = true) := by simpa [Value.IsEmpty] using hne
  obtain ⟨h2, h1⟩ := parse_literal a arch s hlit
  have hno : ¬ (a.literalValue s < a.minVal arch ∨ a.maxVal arch < a.literalValue s) := by
    unfold IntAccessor.inRange at hrange
    omega
  rw [if_neg hno] at h2
  rw [if_neg (fun h => hno (Or.inl h)), if_neg (fun h => hno (Or.inr h))] at h1
  refine ⟨(a.parse arch s).1, ?_, h1⟩
  rw [call_eq, if_neg (by tauto), ← h2]

theorem intAccessor_parses_literal_witness :
    ∃ n : ℤ, Value.Int8 .bits64 "-128" [7] = .ok (n, none) ∧ n = -128 :=
  intAccessor_parses_literal .Int8 .bits64 "-128" [7] (by decide) (by decide) (by decide)

/-- C3: for every integer accessor, every string that is not a base-10
literal of the accessor's signedness or whose number is outside the range of
the result type, and every supplied default `d`, the accessor returns
`(d, err)` with `err` non-nil. -/
theorem intAccessor_default_on_failure (a : IntAccessor) (arch : Arch) (s : Value)
    (d : a.T) (rest : List a.T) (hfail : a.isLiteral s = false ∨ ¬ a.inRange arch s) :
    ∃ e : NumError, a.call arch s (d :: rest) = .ok (d, some e) := by
  have herr : (a.parse arch s).2.isSome = true := by
    rw [parse_err_isSome_iff]
    rintro ⟨h1, h2⟩
    rcases hfail with h | h
    · rw [h1] at h; exact Bool.noConfusion h
    · exact h h2
  obtain ⟨e, he⟩ := Option.isSome_iff_exists.1 herr
  exact ⟨e, by rw [call_default_of_err a arch s d rest herr, he]⟩

theorem intAccessor_default_on_failure_witness :
    ∃ e : NumError, Value.Uint8 .bits32 "256" [9] = .ok (9, some e) :=
  intAccessor_default_on_failure .Uint8 .bits32 "256" 9 [] (Or.inr (by decide))

/-- C4, as stated, fails: `"128"` is a literal outside the range of `int8`, and
`Value("128").Int8()` returns `127` with the range error, not `0`. -/
theorem int8_overflow_returns_bound :
    IntAccessor.Int8.isLiteral "128" = true ∧ ¬ IntAccessor.Int8.inRange .bits64 "128" ∧
    Value.Int8 .bits64 "128" [] = .ok (127, some (rangeError "ParseInt" "128")) ∧
    ¬ ∃ e : NumError, Value.Int8 .bits64 "128" [] = .ok (0, some e) := by
  refine ⟨by decide, by decide, by decide, ?_⟩
  rintro ⟨e, he⟩
  have h : Value.Int8 .bits64 "128" [] = .ok (127, some (rangeError "ParseInt" "128")) := by
    decide
  rw [h] at he
  injection he with he
  injection he with h1 _
  exact absurd h1 (by decide)

/-- C4, amended: for every integer accessor called with no default on a
string whose parse fails, the accessor returns `(v, err)` with `err` non-nil.
`v` is `0` when `err` is a syntax error, which is the case for the empty
string; `v` is the largest or the smallest number of the result type when
`err` is a range error, which is the case for every out-of-range literal: the
smallest number when the literal lies below the range, the largest when it
lies above. -/
theorem intAccessor_failure_value (a : IntAccessor) (arch : Arch) (s : Value)
    (hfail : a.isLiteral s = false ∨ ¬ a.inRange arch s) :
    ∃ (v : a.T) (e : NumError), a.call arch s [] = .ok (v, some e) ∧
      ((e = syntaxError a.fn s ∧ a.toInt v = 0) ∨
        (e = rangeError a.fn s ∧ (a.toInt v = a.maxVal arch ∨ a.toInt v = a.minVal arch))) ∧
      (s = "" → e = syntaxError a.fn s ∧ a.toInt v = 0) ∧
      (a.isLiteral s = true → e = rangeError a.fn s ∧
        a.toInt v =
          if a.literalValue s < a.minVal arch then a.minVal arch else a.maxVal arch) := by
  rw [call_nil]
  cases hlit : a.isLiteral s with
  | false =>
    have hemp : s = "" → (a.parse arch s).2 = some (syntaxError a.fn s) ∧
        a.toInt (a.parse arch s).1 = 0 := by
      intro h
      rw [h]
      exact parse_empty a arch
    rcases parse_not_literal a arch s hlit with h | h
    · refine ⟨(a.parse arch s).1, syntaxError a.fn s, ?_, Or.inl ⟨rfl, h.2⟩, ?_, ?_⟩
      · rw [← h.1]
      · exact fun _ => ⟨rfl, h.2⟩
      · intro hc; exact Bool.noConfusion hc
    · refine ⟨(a.parse arch s).1, rangeError a.fn s, ?_, Or.inr ⟨rfl, h.2⟩, ?_, ?_⟩
      · rw [← h.1]
      · intro hs
        have h3 := (hemp hs).1
        rw [h.1] at h3
        exact absurd (Option.some.inj h3) (by simp [rangeError, syntaxError])
      · intro hc; exact Bool.noConfusion hc
  | true =>
    have hout : ¬ a.inRange arch s := by
      rcases hfail with h | h
      · rw [hlit] at h; exact Bool.noConfusion h
      · exact h
    have hor : a.literalValue s < a.minVal arch ∨ a.maxVal arch < a.literalValue s := by
      unfold IntAccessor.inRange at hout
      omega
    obtain ⟨h2, h1⟩ := parse_literal a arch s hlit
    rw [if_pos hor] at h2
    have hval : a.toInt (a.parse arch s).1 =
        if a.literalValue s < a.minVal arch then a.minVal arch else a.maxVal arch := by
      rw [h1]
      by_cases hlo : a.literalValue s < a.minVal arch
      · rw [if_pos hlo, if_pos hlo]
      · rw [if_neg hlo, if_neg hlo, if_pos (hor.resolve_left hlo)]
    refine ⟨(a.parse arch s).1, rangeError a.fn s, ?_, Or.inr ⟨rfl, ?_⟩, ?_, fun _ => ⟨rfl, hval⟩⟩
    · rw [← h2]
    · rw [hval]
      by_cases hlo : a.literalValue s < a.minVal arch
      · rw [if_pos hlo]; exact Or.inr rfl
      · rw [if_neg hlo]; exact Or.inl rfl
    · intro hs
      rw [hs] at hlit
      exact absurd hlit (by cases a <;> decide)

theorem intAccessor_failure_value_witness :
    ∃ (v : ℤ) (e : NumError), Value.Int16 .bits64 "-40000" [] = .ok (v, some e) ∧
      ((e = syntaxError "ParseInt" "-40000" ∧ v = 0) ∨
        (e = rangeError "ParseInt" "-40000" ∧
          (v = IntAccessor.Int16.maxVal .bits64 ∨ v = IntAccessor.Int16.minVal .bits64))) ∧
      (("-40000" : Value) = "" → e = syntaxError "ParseInt" "-40000" ∧ v = 0) ∧
      (IntAccessor.Int16.isLiteral "-40000" = true → e = rangeError "ParseInt" "-40000" ∧
        v = if IntAccessor.Int16.literalValue "-40000" < IntAccessor.Int16.minVal .bits64
          then IntAccessor.Int16.minVal .bits64 else IntAccessor.Int16.maxVal .bits64) :=
  intAccessor_failure_value .Int16 .bits64 "-40000" (Or.inr (by decide))

/-- C5: for every integer accessor and every supplied default `d`, calling
the accessor on the empty string returns `(d, err)` where `err` is the syntax
error of the parse of the empty string. -/
theorem intAccessor_empty_with_default (a : IntAccessor) (arch : Arch) (d : a.T)
    (rest : List a.T) :
    a.call arch "" (d :: rest) = .ok (d, some (syntaxError a.fn "")) := by
  have h := (parse_empty a arch).1
  rw [call_default_of_err a arch "" d rest (by rw [h]; rfl), h]

/-! ## `Bool`, `Text` and `Duration` -/

theorem ParseBool_true {s : String} (h : s ∈ trueLiterals) : ParseBool s = (true, none) := by
  simp only [trueLiterals, List.mem_cons, List.mem_singleton, List.not_mem_nil, or_false] at h
  unfold ParseBool
  rw [if_pos h]

theorem ParseBool_false {s : String} (h : s ∈ falseLiterals) :
    ParseBool s = (false, none) := by
  simp only [falseLiterals, List.mem_cons, List.mem_singleton, List.not_mem_nil, or_false] at h
  have hnt : ¬ (s = "1" ∨ s = "t" ∨ s = "T" ∨ s = "TRUE" ∨ s = "true" ∨ s = "True") := by
    rcases h with h | h | h | h | h | h <;> rw [h] <;> decide
  unfold ParseBool
  rw [if_neg hnt, if_pos h]

theorem ParseBool_other {s : String} (ht : s ∉ trueLiterals) (hf : s ∉ falseLiterals) :
    ParseBool s = (false, some (syntaxError "ParseBool" s)) := by
  simp only [trueLiterals, falseLiterals, List.mem_cons, List.mem_singleton,
    List.not_mem_nil, or_false] at ht hf
  unfold ParseBool
  rw [if_neg ht, if_neg hf]

/-- A string that standard boolean parsing accepts has a lower-cased form
among `true`, `1`, `t`, `false`, `0`, `f`. -/
theorem lowerCased_of_literal {s : String} (h : s ∈ trueLiterals ++ falseLiterals) :
    lowerCased s ∈ ["true", "1", "t", "false", "0", "f"] := by
  simp only [trueLiterals, falseLiterals, List.cons_append, List.nil_append, List.mem_cons,
    List.mem_singleton, List.not_mem_nil, or_false] at h
  rcases h with h | h | h | h | h | h | h | h | h | h | h | h <;> rw [h] <;> decide

/-- C6: on the empty string `Bool` returns `(false, nil)` whatever defaults
are supplied. -/
theorem Bool_empty (dflt : List Bool) : Value.Bool "" dflt = .ok (false, none) := by
  simp [Value.Bool, Value.IsEmpty]

/-- C7, as stated, fails: the lower-cased form of `"tRuE"` is `"true"`, yet
`Value("tRuE").Bool()` returns `false` and a syntax error. -/
theorem Bool_rejects_mixed_case :
    lowerCased "tRuE" = "true" ∧
    Value.Bool "tRuE" [] = .ok (false, some (syntaxError "ParseBool" "tRuE")) ∧
    Value.Bool "tRuE" [] ≠ .ok (true, none) := by
  decide

/-- C7, amended: `Bool` accepts the boolean literals in the spellings of
standard boolean parsing only.  For `s` one of `1`, `t`, `T`, `TRUE`, `true`,
`True` it returns `(true, nil)`, and for `s` one of `0`, `f`, `F`, `FALSE`,
`false`, `False` it returns `(false, nil)`, whatever defaults are supplied. -/
theorem Bool_accepts_literals (s : Value) (dflt : List Bool)
    (h : s ∈ trueLiterals ∨ s ∈ falseLiterals) :
    Value.Bool s dflt = .ok (decide (s ∈ trueLiterals), none) := by
  have hne : Value.IsEmpty s = false := by
    have : s ≠ "" := by
      rintro rfl
      rcases h with h | h <;> exact absurd h (by decide)
    simpa [Value.IsEmpty] using this
  rcases h with h | h
  · simp [Value.Bool, hne, ParseBool_true h, h]
  · have hnt : s ∉ trueLiterals := by
      intro ht
      simp only [trueLiterals, falseLiterals, List.mem_cons, List.mem_singleton,
        List.not_mem_nil, or_false] at h ht
      rcases h with h | h | h | h | h | h <;> rw [h] at ht <;> exact absurd ht (by decide)
    simp [Value.Bool, hne, ParseBool_false h, hnt]

theorem Bool_accepts_literals_witness :
    Value.Bool "True" [false] = .ok (true, none) ∧ Value.Bool "F" [true] = .ok (false, none) :=
  ⟨Bool_accepts_literals "True" [false] (Or.inl (by decide)),
    Bool_accepts_literals "F" [true] (Or.inr (by decide))⟩

/-- C8: for every non-empty string `s` that is not a boolean literal,
`Value(s).Bool()` returns `(false, err)` and `Value(s).Bool(d)` returns
`(d, err)` for every default `d`, where `err` is the non-nil syntax error of
the parse. -/
theorem Bool_default_on_failure (s : Value) (d : Bool) (rest : List Bool) (hne : s ≠ "")
    (hnot : s ∉ trueLiterals ++ falseLiterals) :
    Value.Bool s [] = .ok (false, some (syntaxError "ParseBool" s)) ∧
    Value.Bool s (d :: rest) = .ok (d, some (syntaxError "ParseBool" s)) := by
  have hemp : Value.IsEmpty s = false := by simpa [Value.IsEmpty] using hne
  rw [List.mem_append, not_or] at hnot
  have hp := ParseBool_other hnot.1 hnot.2
  constructor
  · simp [Value.Bool, hemp, hp]
  · simp [Value.Bool, hemp, hp, index, Except.map]

theorem Bool_default_on_failure_witness :
    Value.Bool "notabool" [] = .ok (false, some (syntaxError "ParseBool" "notabool")) ∧
    Value.Bool "notabool" [true] = .ok (true, some (syntaxError "ParseBool" "notabool")) :=
  Bool_default_on_failure "notabool" true [] (by decide) (by decide)

/-- C9: `Value(s).Text() == s`, and `Value(s).Text(d)` is `d` when `s` is
empty and `s` otherwise; in particular `Value("").Text("fallback")` is
`"fallback"`, `Value("x").Text("fallback")` is `"x"` and `Value("").Text()` is
the empty string. -/
theorem Text_spec (s : Value) (d : String) :
    Value.Text s [] = .ok s ∧
    Value.Text s [d] = .ok (if s = "" then d else s) ∧
    Value.Text "" ["fallback"] = .ok "fallback" ∧
    Value.Text "x" ["fallback"] = .ok "x" ∧
    Value.Text "" [] = .ok "" := by
  refine ⟨by simp [Value.Text], ?_, by decide, by decide, by decide⟩
  by_cases h : s = ""
  · simp [Value.Text, Value.IsEmpty, h, index]
  · simp [Value.Text, Value.IsEmpty, h]

/-- C10: `Duration` returns the number and the error of the 64-bit signed
accessor on the same receiver and defaults, the number taken as a count of
nanoseconds; nothing else is parsed, so `"1s"` is a syntax error. -/
theorem Duration_eq_Int64 (arch : Arch) (s : Value) (dflt : List ℤ) :
    (∃ (n : ℤ) (err : Option NumError), Value.Int64 arch s dflt = .ok (n, err) ∧
      Value.Duration arch s dflt = .ok (time.Duration.mk n, err)) ∧
    Value.Duration arch "1s" [] = .ok (time.Duration.mk 0, some (syntaxError "ParseInt" "1s")) := by
  constructor
  · obtain ⟨r, hr⟩ := call_ok .Int64 arch s dflt
    have hr2 : Value.Int64 arch s dflt = .ok r := hr
    refine ⟨r.1, r.2, hr2, ?_⟩
    simp [Value.Duration, hr2, Except.map]
  · cases arch <;> decide

/-! ## Go maps -/

theorem keyEq_iff (a b : Any) : Any.keyEq a b = true ↔ a = b ∧ a ≠ Any.nan := by
  simp [Any.keyEq]

theorem lookup_empty (key : Any) : GoMap.lookup GoMap.empty key = none := rfl

theorem find_map_self (m : GoMap) (k v : Any)
    (h : ∃ e ∈ m, Any.keyEq e.1 k = true) :
    ((m.map fun e => if Any.keyEq e.1 k then (e.1, v) else e).find?
      fun e => Any.keyEq e.1 k).map Prod.snd = some v := by
  induction m with
  | nil => obtain ⟨e, he, _⟩ := h; cases he
  | cons e m ih =>
    by_cases hek : Any.keyEq e.1 k = true
    · simp [List.find?, hek]
    · have hex : ∃ e ∈ m, Any.keyEq e.1 k = true := by
        obtain ⟨x, hx, hxk⟩ := h
        rcases List.mem_cons.1 hx with rfl | hx
        · exact absurd hxk hek
        · exact ⟨x, hx, hxk⟩
      have hek2 : Any.keyEq e.1 k = false := by simpa using hek
      simp only [List.map_cons, hek2, Bool.false_eq_true, if_false, List.find?]
      exact ih hex

/-- After `m[k] = v` the map finds `v` under `k`, unless `k` is not equal to
itself. -/
theorem lookup_insert_self (m : GoMap) (k v : Any) (hk : k ≠ Any.nan) :
    (m.insert k v).lookup k = some v := by
  unfold GoMap.insert GoMap.lookup
  by_cases hany : m.any (fun e => Any.keyEq e.1 k) = true
  · rw [if_pos hany]
    exact find_map_self m k v (by simpa using hany)
  · rw [if_neg hany]
    have hnone : m.find? (fun e => Any.keyEq e.1 k) = none := by
      rw [List.find?_eq_none]
      intro x hx hxk
      exact hany (List.any_eq_true.2 ⟨x, hx, hxk⟩)
    have hkk : Any.keyEq k k = true := (keyEq_iff k k).2 ⟨rfl, hk⟩
    simp [List.find?_append, hnone, List.find?, hkk]

theorem find_map_other (m : GoMap) (k k1 v : Any) (hne : k1 ≠ k) :
    ((m.map fun e => if Any.keyEq e.1 k then (e.1, v) else e).find?
      fun e => Any.keyEq e.1 k1).map Prod.snd =
    (m.find? fun e => Any.keyEq e.1 k1).map Prod.snd := by
  induction m with
  | nil => rfl
  | cons e m ih =>
    by_cases hek : Any.keyEq e.1 k = true
    · have he1 : Any.keyEq e.1 k1 = false := by
        cases h1 : Any.keyEq e.1 k1 with
        | false => rfl
        | true =>
          exfalso
          have h2 := ((keyEq_iff _ _).1 hek).1
          have h3 := ((keyEq_iff _ _).1 h1).1
          exact hne (h3.symm.trans h2)
      simp only [List.map_cons, hek, if_true, List.find?, he1]
      exact ih
    · have hek2 : Any.keyEq e.1 k = false := by simpa using hek
      simp only [List.map_cons, hek2, Bool.false_eq_true, if_false, List.find?]
      cases Any.keyEq e.1 k1
      · exact ih
      · rfl

/-- The assignment `m[k] = v` does not change what the map finds under any
other key. -/
theorem lookup_insert_other (m : GoMap) (k k1 v : Any) (hne : k1 ≠ k) :
    (m.insert k v).lookup k1 = m.lookup k1 := by
  unfold GoMap.insert GoMap.lookup
  by_cases hany : m.any (fun e => Any.keyEq e.1 k) = true
  · rw [if_pos hany]
    exact find_map_other m k k1 v hne
  · rw [if_neg hany]
    have hkk : Any.keyEq k k1 = false := by
      cases h1 : Any.keyEq k k1 with
      | false => rfl
      | true => exact absurd ((keyEq_iff _ _).1 h1).1.symm hne
    simp [List.find?_append, List.find?, hkk]

/-- A map holds at least one entry after an assignment. -/
theorem insert_ne_nil (m : GoMap) (k v : Any) : m.insert k v ≠ [] := by
  unfold GoMap.insert
  split_ifs with h
  · intro hnil
    rw [List.map_eq_nil_iff] at hnil
    rw [hnil] at h
    simp at h
  · simp

/-! ## `SyncMap`: the methods one by one -/

theorem mapIndex_eq (item : Option GoMap) (key : Any) (hkey : key.hashable = true) :
    mapIndex item key =
      .ok (match item.bind (fun m => m.lookup key) with
        | some v => (v, true)
        | none => (.nil, false)) := by
  unfold mapIndex
  rw [if_neg (by simp [hkey])]
  cases item with
  | none => rfl
  | some m =>
    simp only [Option.bind]
    cases m.lookup key <;> rfl

/-- With the lock free, `Set` with a hashable key returns, leaves the lock
free and leaves the map allocated with the pair assigned. -/
theorem Set_eq (d : SyncMap) (key value : Any) (hfree : d.mu = RWMutex.unlocked)
    (hkey : key.hashable = true) :
    SyncMap.Set d key value =
      .ok ⟨some ((d.item.getD GoMap.empty).insert key value), RWMutex.unlocked⟩ := by
  obtain ⟨item, mu⟩ := d
  simp only at hfree
  subst hfree
  cases item <;>
    simp [SyncMap.Set, SyncMap.setStep, RWMutex.Lock, RWMutex.Unlock, RWMutex.unlocked,
      mapAssign, hkey, Except.bind, Except.map]

/-- With the lock free, `Set` with an unhashable key panics. -/
theorem Set_unhashable (d : SyncMap) (key value : Any) (hfree : d.mu = RWMutex.unlocked)
    (hkey : key.hashable = false) :
    SyncMap.Set d key value = .error .hashOfUnhashable := by
  obtain ⟨item, mu⟩ := d
  simp only at hfree
  subst hfree
  cases item <;>
    simp [SyncMap.Set, SyncMap.setStep, RWMutex.Lock, RWMutex.unlocked,
      mapAssign, hkey, Except.bind, Except.map]

/-- With no writer holding the lock, `Get` with a hashable key returns the
result of the map read and leaves the store as it was. -/
theorem Get_eq (d : SyncMap) (key : Any) (hw : d.mu.writer = false)
    (hkey : key.hashable = true) :
    SyncMap.Get d key =
      .ok ((match d.lookup key with
        | some v => (v, true)
        | none => (.nil, false)), d) := by
  obtain ⟨item, ⟨w, r⟩⟩ := d
  simp only at hw
  subst hw
  simp only [SyncMap.Get, RWMutex.RLock, mapIndex_eq item key hkey, SyncMap.lookup]
  simp [RWMutex.RUnlock, Except.bind, Except.map]

/-- With no writer holding the lock, `Get` with an unhashable key panics. -/
theorem Get_unhashable (d : SyncMap) (key : Any) (hw : d.mu.writer = false)
    (hkey : key.hashable = false) :
    SyncMap.Get d key = .error .hashOfUnhashable := by
  obtain ⟨item, ⟨w, r⟩⟩ := d
  simp only at hw
  subst hw
  simp [SyncMap.Get, RWMutex.RLock, mapIndex, hkey, Except.bind]

/-- With the lock free, `Clear` returns and leaves a nil map. -/
theorem Clear_eq (d : SyncMap) (hfree : d.mu = RWMutex.unlocked) :
    SyncMap.Clear d = .ok ⟨none, RWMutex.unlocked⟩ := by
  obtain ⟨item, mu⟩ := d
  simp only at hfree
  subst hfree
  rfl

theorem indexF_cons_zero {α : Type} (x : α) (xs : List α) : indexF (x :: xs) 0 = .ok x := by
  simp [indexF, index]

/-- With no writer holding the lock, a typed getter with a hashable key
returns the stored value when the key is present and the value has the
getter's type, and otherwise the first default, or the zero value when there
is no default; the store is left as it was. -/
theorem typed_eq (g : Getter) (d : SyncMap) (key : Any) (dflt : List g.T)
    (hw : d.mu.writer = false) (hkey : key.hashable = true) :
    g.call d key dflt =
      .ok ((match d.lookup key with
        | none => dflt.head?.getD g.zero
        | some x =>
          match g.unbox x with
          | some t => t
          | none => dflt.head?.getD g.zero), d) := by
  have hget := Get_eq d key hw hkey
  cases hl : d.lookup key with
  | none =>
    rw [hl] at hget
    cases g <;> cases dflt <;>
      simp [Getter.call, SyncMap.GetString, SyncMap.GetInt, SyncMap.GetInt8,
        SyncMap.GetInt16, SyncMap.GetInt32, SyncMap.GetInt64, SyncMap.GetUint,
        SyncMap.GetUint8, SyncMap.GetUint16, SyncMap.GetUint32, SyncMap.GetUint64,
        SyncMap.GetBool, hget, Except.bind, Except.map, indexF_cons_zero, Getter.zero]
  | some x =>
    rw [hl] at hget
    cases g <;> cases x <;> cases dflt <;>
      simp [Getter.call, SyncMap.GetString, SyncMap.GetInt, SyncMap.GetInt8,
        SyncMap.GetInt16, SyncMap.GetInt32, SyncMap.GetInt64, SyncMap.GetUint,
        SyncMap.GetUint8, SyncMap.GetUint16, SyncMap.GetUint32, SyncMap.GetUint64,
        SyncMap.GetBool, hget, Except.bind, Except.map, indexF_cons_zero, Getter.zero,
        Getter.unbox]

/-- C11, as stated, fails for two kinds of key.  A NaN key is stored by `Set`
but `Get` does not find it: after `Set(NaN, 1)` on a new store, `Get(NaN)`
returns `(nil, false)`.  An unhashable key makes `Set` panic. -/
theorem Set_then_Get_fails_on_odd_keys :
    SyncMap.Set SyncMap.new .nan (.int 1) =
      .ok ⟨some [(.nan, .int 1)], RWMutex.unlocked⟩ ∧
    SyncMap.Get ⟨some [(.nan, .int 1)], RWMutex.unlocked⟩ .nan =
      .ok ((.nil, false), ⟨some [(.nan, .int 1)], RWMutex.unlocked⟩) ∧
    SyncMap.Set SyncMap.new (.unhashable 0 0) (.int 1) = .error .hashOfUnhashable := by
  decide

/-- C11, amended: with the lock free and a hashable key `k`, `Set(k, v)`
returns, whether the map was allocated or not and whether `k` was bound or
not.  Afterwards `Get(k)` returns `(v, true)` if `k` is equal to itself, that
is, not NaN; and `Get` of any other hashable key returns what it returned
before. -/
theorem Set_then_Get (d : SyncMap) (k k1 v : Any) (hfree : d.mu = RWMutex.unlocked)
    (hk : k.hashable = true) :
    ∃ d1, SyncMap.Set d k v = .ok d1 ∧
      (k ≠ Any.nan → SyncMap.Get d1 k = .ok ((v, true), d1)) ∧
      (k1.hashable = true → k1 ≠ k →
        ∃ r, SyncMap.Get d k1 = .ok (r, d) ∧ SyncMap.Get d1 k1 = .ok (r, d1)) := by
  refine ⟨_, Set_eq d k v hfree hk, ?_, ?_⟩
  · intro hnan
    rw [Get_eq _ k rfl hk]
    simp only [SyncMap.lookup, Option.bind, lookup_insert_self _ k v hnan]
  · intro hk1 hne
    have hw : d.mu.writer = false := by rw [hfree]; rfl
    refine ⟨_, Get_eq d k1 hw hk1, ?_⟩
    rw [Get_eq _ k1 rfl hk1]
    have hl : SyncMap.lookup
        ⟨some ((d.item.getD GoMap.empty).insert k v), RWMutex.unlocked⟩ k1 =
        d.lookup k1 := by
      simp only [SyncMap.lookup, Option.bind, lookup_insert_other _ k k1 v hne]
      cases d.item <;> rfl
    rw [hl]

theorem Set_then_Get_witness :
    ∃ d1, SyncMap.Set SyncMap.new (.string "k") (.int 42) = .ok d1 ∧
      (Any.string "k" ≠ Any.nan → SyncMap.Get d1 (.string "k") = .ok ((.int 42, true), d1)) ∧
      ((Any.string "j").hashable = true → Any.string "j" ≠ Any.string "k" →
        ∃ r, SyncMap.Get SyncMap.new (.string "j") = .ok (r, SyncMap.new) ∧
          SyncMap.Get d1 (.string "j") = .ok (r, d1)) :=
  Set_then_Get SyncMap.new (.string "k") (.string "j") (.int 42) rfl rfl

/-- C14: the accessors `Text`, `Int*`, `Uint*`, `Bool` and `Duration` never
panic: for every receiver and every list of defaults, the empty list
included, each returns its value, so no read of `def[0]` is out of range. -/
theorem accessors_never_panic (arch : Arch) (v : Value) :
    (∀ dflt : List String, ∃ r, Value.Text v dflt = .ok r) ∧
    (∀ (a : IntAccessor) (dflt : List a.T), ∃ r, a.call arch v dflt = .ok r) ∧
    (∀ dflt : List Bool, ∃ r, Value.Bool v dflt = .ok r) ∧
    (∀ dflt : List ℤ, ∃ r, Value.Duration arch v dflt = .ok r) := by
  refine ⟨?_, fun a dflt => call_ok a arch v dflt, ?_, ?_⟩
  · intro dflt
    cases dflt with
    | nil => exact ⟨v, by simp [Value.Text]⟩
    | cons d rest =>
      unfold Value.Text
      split_ifs
      · exact ⟨d, by simp [index]⟩
      · exact ⟨v, rfl⟩
  · intro dflt
    cases dflt with
    | nil =>
      simp only [Value.Bool, List.length_nil, gt_iff_lt, lt_self_iff_false, if_false]
      split_ifs <;> exact ⟨_, rfl⟩
    | cons d rest =>
      simp only [Value.Bool, List.length_cons, gt_iff_lt, Nat.zero_lt_succ, if_true,
        index_cons_zero]
      split_ifs <;> exact ⟨_, rfl⟩
  · intro dflt
    obtain ⟨r, hr⟩ := call_ok .Int64 arch v dflt
    have hr2 : Value.Int64 arch v dflt = .ok r := hr
    exact ⟨_, by rw [Value.Duration, hr2]; rfl⟩

/-! ## Goroutines calling `Set` -/

theorem keys_ne (calls : List (Any × Any)) (hnd : (calls.map Prod.fst).Nodup) {i j : ℕ}
    {a b : Any × Any} (hi : calls[i]? = some a) (hj : calls[j]? = some b) (hne : i ≠ j) :
    a.1 ≠ b.1 := by
  intro hab
  apply hne
  have hlen : i < (calls.map Prod.fst).length := by
    rw [List.length_map]
    exact (List.getElem?_eq_some_iff.1 hi).1
  apply List.getElem?_inj hlen hnd
  rw [List.getElem?_map, List.getElem?_map, hi, hj]
  simp [hab]

theorem Inv_init (calls : List (Any × Any)) (d : SyncMap) (hfree : d.mu = RWMutex.unlocked) :
    (Config.init d).Inv calls := by
  refine ⟨by rw [Config.init, hfree]; rfl, fun _ i _ => Or.inl rfl, ?_, ?_⟩
  · intro h
    rw [Config.init, hfree] at h
    exact Bool.noConfusion h
  · intro i call _ h
    simp [Config.init] at h

/-- A step of any goroutine keeps the invariant and raises no fault; the
goroutine moves to its next statement unless it has returned or waits for
the lock. -/
theorem step_inv (calls : List (Any × Any)) (hnd : (calls.map Prod.fst).Nodup)
    (hgood : ∀ call ∈ calls, call.1.hashable = true ∧ call.1 ≠ Any.nan) (c : Config)
    (hinv : c.Inv calls) (i : ℕ) :
    ∃ c1, stepGoroutine calls c i = .ok c1 ∧ c1.Inv calls ∧
      (i < calls.length → c.store.mu.writer = false → c.pc i = 0 → c1.pc i = 1) ∧
      (i < calls.length → (c.pc i = 1 ∨ c.pc i = 2 ∨ c.pc i = 3) → c1.pc i = c.pc i + 1) := by
  obtain ⟨⟨item, ⟨w, r⟩⟩, pc⟩ := c
  obtain ⟨hr, hfree, hheld, hvis⟩ := hinv
  simp only at hr hfree hheld hvis
  subst hr
  cases hcall : calls[i]? with
  | none =>
    have hlen : calls.length ≤ i := List.getElem?_eq_none_iff.1 hcall
    refine ⟨⟨⟨item, ⟨w, 0⟩⟩, pc⟩, by simp [stepGoroutine, hcall], ⟨rfl, hfree, hheld, hvis⟩,
      ?_, ?_⟩
    · intro h; omega
    · intro h; omega
  | some call =>
    have hi : i < calls.length := (List.getElem?_eq_some_iff.1 hcall).1
    obtain ⟨hhash, hnan⟩ := hgood call (List.getElem?_mem hcall)
    cases w with
    | false =>
      rcases hfree rfl i hi with h0 | h4
      · refine ⟨⟨⟨item, ⟨true, 0⟩⟩, Function.update pc i 1⟩, ?_, ?_, ?_, ?_⟩
        · simp [stepGoroutine, hcall, h0, SyncMap.setStep, RWMutex.Lock, Except.map]
        · refine ⟨rfl, fun h => Bool.noConfusion h, fun _ => ⟨i, hi, Or.inl (by simp), ?_, ?_⟩, ?_⟩
          · intro h; simp at h
          · intro j hj hji
            simp only [Function.update_noteq hji]
            exact hfree rfl j hj
          · intro j cj hcj hpcj
            by_cases hji : j = i
            · subst hji; simp at hpcj
            · simp only [Function.update_noteq hji] at hpcj
              exact hvis j cj hcj hpcj
        · intro _ _ _; simp
        · intro _ h; simp only at h; omega
      · refine ⟨⟨⟨item, ⟨false, 0⟩⟩, pc⟩, by simp [stepGoroutine, hcall, h4],
          ⟨rfl, hfree, hheld, hvis⟩, ?_, ?_⟩
        · intro _ _ h; simp only at h; omega
        · intro _ h; simp only at h; omega
    | true =>
      obtain ⟨h, hh, hpch, hitem, hothers⟩ := hheld rfl
      by_cases hih : i = h
      · subst hih
        rcases hpch with h1 | h2 | h3
        · -- the lazy allocation
          refine ⟨⟨⟨if item.isNone then some GoMap.empty else item, ⟨true, 0⟩⟩,
            Function.update pc i 2⟩, ?_, ?_, ?_, ?_⟩
          · cases item <;> simp [stepGoroutine, hcall, h1, SyncMap.setStep]
          · refine ⟨rfl, fun h => Bool.noConfusion h,
              fun _ => ⟨i, hi, Or.inr (Or.inl (by simp)), ?_, ?_⟩, ?_⟩
            · intro _; cases item <;> simp
            · intro j hj hji
              simp only [Function.update_noteq hji]
              exact hothers j hj hji
            · intro j cj hcj hpcj
              by_cases hji : j = i
              · subst hji; simp at hpcj
              · simp only [Function.update_noteq hji] at hpcj
                have := hvis j cj hcj hpcj
                cases item with
                | none => simp [SyncMap.lookup] at this
                | some m => simpa using this
          · intro _ h; exact Bool.noConfusion h
          · intro _ _; simp [h1]
        · -- the assignment
          have hsome := hitem (by omega)
          simp only at hsome
          obtain ⟨m, rfl⟩ := Option.isSome_iff_exists.1 hsome
          refine ⟨⟨⟨some (m.insert call.1 call.2), ⟨true, 0⟩⟩, Function.update pc i 3⟩,
            ?_, ?_, ?_, ?_⟩
          · simp [stepGoroutine, hcall, h2, SyncMap.setStep, mapAssign, hhash, Except.map]
          · refine ⟨rfl, fun h => Bool.noConfusion h,
              fun _ => ⟨i, hi, Or.inr (Or.inr (by simp)), fun _ => rfl, ?_⟩, ?_⟩
            · intro j hj hji
              simp only [Function.update_noteq hji]
              exact hothers j hj hji
            · intro j cj hcj hpcj
              by_cases hji : j = i
              · subst hji
                rw [hcall] at hcj
                cases hcj
                simp only [SyncMap.lookup, Option.bind]
                exact lookup_insert_self m call.1 call.2 hnan
              · simp only [Function.update_noteq hji] at hpcj
                have hold := hvis j cj hcj hpcj
                have hk := keys_ne calls hnd hcj hcall hji
                simp only [SyncMap.lookup, Option.bind] at hold ⊢
                rw [lookup_insert_other m call.1 cj.1 call.2 hk]
                exact hold
          · intro _ h; exact Bool.noConfusion h
          · intro _ _; simp [h2]
        · -- the unlock
          refine ⟨⟨⟨item, ⟨false, 0⟩⟩, Function.update pc i 4⟩, ?_, ?_, ?_, ?_⟩
          · simp [stepGoroutine, hcall, h3, SyncMap.setStep, RWMutex.Unlock, Except.map]
          · refine ⟨rfl, ?_, fun h => Bool.noConfusion h, ?_⟩
            · intro _ j hj
              by_cases hji : j = i
              · subst hji; right; simp
              · simp only [Function.update_noteq hji]
                exact hothers j hj hji
            · intro j cj hcj hpcj
              by_cases hji : j = i
              · subst hji
                exact hvis j cj hcj (by omega)
              · simp only [Function.update_noteq hji] at hpcj
                exact hvis j cj hcj hpcj
          · intro _ h; exact Bool.noConfusion h
          · intro _ _; simp [h3]
      · rcases hothers i hi hih with h0 | h4
        · refine ⟨⟨⟨item, ⟨true, 0⟩⟩, pc⟩,
            by simp [stepGoroutine, hcall, h0, SyncMap.setStep, RWMutex.Lock, Except.map],
            ⟨rfl, hfree, fun _ => ⟨h, hh, hpch, hitem, hothers⟩, hvis⟩, ?_, ?_⟩
          · intro _ h; exact Bool.noConfusion h
          · intro _ h; simp only at h; omega
        · refine ⟨⟨⟨item, ⟨true, 0⟩⟩, pc⟩, by simp [stepGoroutine, hcall, h4],
            ⟨rfl, hfree, fun _ => ⟨h, hh, hpch, hitem, hothers⟩, hvis⟩, ?_, ?_⟩
          · intro _ h; exact Bool.noConfusion h
          · intro _ h; simp only at h; omega


/-- Under every schedule the goroutines run without a fault and the
invariant holds at the end. -/
theorem run_inv (calls : List (Any × Any)) (hnd : (calls.map Prod.fst).Nodup)
    (hgood : ∀ call ∈ calls, call.1.hashable = true ∧ call.1 ≠ Any.nan) :
    ∀ (sched : List ℕ) (c : Config), c.Inv calls →
      ∃ c1, runSchedule calls c sched = .ok c1 ∧ c1.Inv calls := by
  intro sched
  induction sched with
  | nil => intro c hinv; exact ⟨c, rfl, hinv⟩
  | cons i rest ih =>
    intro c hinv
    obtain ⟨c1, hstep, hinv1, _⟩ := step_inv calls hnd hgood c hinv i
    obtain ⟨c2, hrun, hinv2⟩ := ih c1 hinv1
    exact ⟨c2, by simp [runSchedule, hstep, hrun, Except.bind], hinv2⟩

/-- When no goroutine can move, every call has returned and the lock is
free. -/
theorem quiescent_done (calls : List (Any × Any)) (hnd : (calls.map Prod.fst).Nodup)
    (hgood : ∀ call ∈ calls, call.1.hashable = true ∧ call.1 ≠ Any.nan)
    (c : Config) (hinv : c.Inv calls)
    (hq : ∀ i, i < calls.length → stepGoroutine calls c i = .ok c) :
    c.store.mu.writer = false ∧ ∀ i, i < calls.length → c.pc i = 4 := by
  have hmove : ∀ i, i < calls.length →
      ((c.store.mu.writer = false ∧ c.pc i = 0) ∨ c.pc i = 1 ∨ c.pc i = 2 ∨ c.pc i = 3) →
      False := by
    intro i hi hcase
    obtain ⟨c1, hstep, _, hlock, hin⟩ := step_inv calls hnd hgood c hinv i
    rw [hq i hi] at hstep
    injection hstep with hstep
    subst hstep
    rcases hcase with ⟨hw, h0⟩ | h
    · have := hlock hi hw h0
      omega
    · have := hin hi h
      omega
  cases hw : c.store.mu.writer with
  | true =>
    obtain ⟨h, hh, hpch, _, _⟩ := hinv.2.2.1 hw
    exact absurd (Or.inr hpch) (hmove h hh)
  | false =>
    refine ⟨rfl, fun i hi => ?_⟩
    rcases hinv.2.1 hw i hi with h0 | h4
    · exact absurd (Or.inl ⟨hw, h0⟩) (hmove i hi)
    · exact h4

/-! ### Completion -/

theorem step_shape (calls : List (Any × Any)) (c c1 : Config) (i : ℕ)
    (h : stepGoroutine calls c i = .ok c1) :
    c1 = c ∨ (i < calls.length ∧ c.pc i < 4 ∧
      c1.pc = Function.update c.pc i (c.pc i + 1)) := by
  unfold stepGoroutine at h
  cases hcall : calls[i]? with
  | none =>
    rw [hcall] at h
    injection h with h
    exact Or.inl h.symm
  | some call =>
    have hi : i < calls.length := (List.getElem?_eq_some_iff.1 hcall).1
    rw [hcall] at h
    simp only at h
    by_cases hpc : c.pc i < 4
    · rw [if_pos hpc] at h
      cases hs : SyncMap.setStep call.1 call.2 c.store (c.pc i) with
      | ok s =>
        rw [hs] at h
        injection h with h
        exact Or.inr ⟨hi, hpc, by rw [← h]⟩
      | error f =>
        rw [hs] at h
        cases f with
        | blocked =>
          injection h with h
          exact Or.inl h.symm
        | panic p => exact Except.noConfusion h
        | nilMapAssign => exact Except.noConfusion h
        | hashOfUnhashable => exact Except.noConfusion h
        | unlockOfUnlocked => exact Except.noConfusion h
    · rw [if_neg hpc] at h
      injection h with h
      exact Or.inl h.symm

theorem remaining_decreases (n : ℕ) (pc : ℕ → ℕ) (i : ℕ) (hi : i < n) (hpc : pc i < 4) :
    ∑ j ∈ Finset.range n, (4 - Function.update pc i (pc i + 1) j) + 1 =
      ∑ j ∈ Finset.range n, (4 - pc j) := by
  have hmem : i ∈ Finset.range n := Finset.mem_range.2 hi
  rw [← Finset.add_sum_erase _ _ hmem, ← Finset.add_sum_erase _ (fun j => 4 - pc j) hmem]
  have hrest : ∑ j ∈ (Finset.range n).erase i, (4 - Function.update pc i (pc i + 1) j) =
      ∑ j ∈ (Finset.range n).erase i, (4 - pc j) := by
    apply Finset.sum_congr rfl
    intro j hj
    rw [Function.update_noteq (Finset.ne_of_mem_erase hj)]
  rw [hrest, Function.update_same]
  omega

theorem runSchedule_append (calls : List (Any × Any)) :
    ∀ (s1 s2 : List ℕ) (c c1 : Config), runSchedule calls c s1 = .ok c1 →
      runSchedule calls c (s1 ++ s2) = runSchedule calls c1 s2 := by
  intro s1
  induction s1 with
  | nil =>
    intro s2 c c1 h
    injection h with h
    rw [h]
    rfl
  | cons i rest ih =>
    intro s2 c c1 h
    simp only [runSchedule, List.cons_append] at h ⊢
    cases hs : stepGoroutine calls c i with
    | error f => rw [hs] at h; exact Except.noConfusion h
    | ok c2 =>
      rw [hs] at h
      exact ih s2 c2 c1 h

/-- From every configuration that satisfies the invariant the goroutines can
run on until every call has returned. -/
theorem can_complete (calls : List (Any × Any)) (hnd : (calls.map Prod.fst).Nodup)
    (hgood : ∀ call ∈ calls, call.1.hashable = true ∧ call.1 ≠ Any.nan) :
    ∀ (n : ℕ) (c : Config), c.Inv calls →
      ∑ j ∈ Finset.range calls.length, (4 - c.pc j) = n →
      ∃ more c1, runSchedule calls c more = .ok c1 ∧ c1.Inv calls ∧
        ∀ i, i < calls.length → c1.pc i = 4 := by
  intro n
  induction n with
  | zero =>
    intro c hinv hsum
    by_cases hq : ∀ i, i < calls.length → stepGoroutine calls c i = .ok c
    · exact ⟨[], c, rfl, hinv, (quiescent_done calls hnd hgood c hinv hq).2⟩
    · exfalso
      push_neg at hq
      obtain ⟨i, hi, hne⟩ := hq
      obtain ⟨c1, hstep, _, _, _⟩ := step_inv calls hnd hgood c hinv i
      rcases step_shape calls c c1 i hstep with h | ⟨_, hpc, hupd⟩
      · rw [h] at hstep; exact hne hstep
      · have := remaining_decreases calls.length c.pc i hi hpc
        omega
  | succ n ih =>
    intro c hinv hsum
    by_cases hq : ∀ i, i < calls.length → stepGoroutine calls c i = .ok c
    · exact ⟨[], c, rfl, hinv, (quiescent_done calls hnd hgood c hinv hq).2⟩
    · push_neg at hq
      obtain ⟨i, hi, hne⟩ := hq
      obtain ⟨c1, hstep, hinv1, _, _⟩ := step_inv calls hnd hgood c hinv i
      rcases step_shape calls c c1 i hstep with h | ⟨_, hpc, hupd⟩
      · rw [h] at hstep; exact absurd hstep hne
      · have hdec := remaining_decreases calls.length c.pc i hi hpc
        rw [← hupd] at hdec
        obtain ⟨more, c2, hrun, hinv2, hdone⟩ := ih c1 hinv1 (by omega)
        exact ⟨i :: more, c2, by simp [runSchedule, hstep, Except.bind, hrun], hinv2, hdone⟩

/-- C15, as stated, fails for two kinds of key.  A goroutine that calls
`Set(NaN, 1)` returns, and `Get(NaN)` then returns `(nil, false)`, so its
update is not visible.  A goroutine that calls `Set` with an unhashable key
panics while it holds the lock, so the calls do not all complete. -/
theorem concurrent_Sets_fail_on_odd_keys :
    (runSchedule [(.nan, .int 1)] (Config.init SyncMap.new) [0, 0, 0, 0]).map
        (fun c => (c.pc 0, c.store, SyncMap.Get c.store .nan)) =
      .ok (4, ⟨some [(.nan, .int 1)], RWMutex.unlocked⟩,
        .ok ((.nil, false), ⟨some [(.nan, .int 1)], RWMutex.unlocked⟩)) ∧
    runSchedule [(.unhashable 0 0, .int 1), (.string "b", .int 2)] (Config.init SyncMap.new)
        [0, 0, 0] = .error .hashOfUnhashable :=
  ⟨by decide, rfl⟩

/-- C15, amended: goroutines that call `Set` on one shared store with
pairwise distinct keys, each key hashable and equal to itself, each goroutine
executing the statements of `Set` one at a time, with the lock free at the
start.  Under every schedule no goroutine faults and the pair of every call
that has returned is in the map; once no goroutine can move, every call has
returned and `Get(k_i)` returns `(v_i, true)` for every `i`; and the run can
always be continued until every call has returned. -/
theorem concurrent_Sets_all_visible (calls : List (Any × Any)) (d0 : SyncMap)
    (sched : List ℕ) (hkeys : (calls.map Prod.fst).Nodup)
    (hgood : ∀ call ∈ calls, call.1.hashable = true ∧ call.1 ≠ Any.nan)
    (hfree : d0.mu = RWMutex.unlocked) :
    ∃ c, runSchedule calls (Config.init d0) sched = .ok c ∧
      (∀ i call, calls[i]? = some call → c.pc i = 4 →
        c.store.lookup call.1 = some call.2) ∧
      ((∀ i, i < calls.length → stepGoroutine calls c i = .ok c) →
        ∀ i call, calls[i]? = some call →
          c.pc i = 4 ∧ SyncMap.Get c.store call.1 = .ok ((call.2, true), c.store)) ∧
      ∃ more c1, runSchedule calls (Config.init d0) (sched ++ more) = .ok c1 ∧
        ∀ i call, calls[i]? = some call →
          c1.pc i = 4 ∧ SyncMap.Get c1.store call.1 = .ok ((call.2, true), c1.store) := by
  have hget : ∀ c : Config, c.Inv calls → (∀ i, i < calls.length → c.pc i = 4) →
      ∀ i call, calls[i]? = some call →
        c.pc i = 4 ∧ SyncMap.Get c.store call.1 = .ok ((call.2, true), c.store) := by
    intro c hinv hdone i call hcall
    have hi : i < calls.length := (List.getElem?_eq_some_iff.1 hcall).1
    have hw : c.store.mu.writer = false := by
      cases hwr : c.store.mu.writer with
      | false => rfl
      | true =>
        obtain ⟨h, hh, hpch, _, _⟩ := hinv.2.2.1 hwr
        have := hdone h hh
        omega
    have hvis := hinv.2.2.2 i call hcall (by rw [hdone i hi]; decide)
    refine ⟨hdone i hi, ?_⟩
    rw [Get_eq c.store call.1 hw (hgood call (List.getElem?_mem hcall)).1, hvis]
  obtain ⟨c, hrun, hinv⟩ := run_inv calls hkeys hgood sched _ (Inv_init calls d0 hfree)
  refine ⟨c, hrun, fun i call hcall h4 => hinv.2.2.2 i call hcall (by omega), ?_, ?_⟩
  · intro hq
    exact hget c hinv (quiescent_done calls hkeys hgood c hinv hq).2
  · obtain ⟨more, c1, hmore, hinv1, hdone⟩ := can_complete calls hkeys hgood _ c hinv rfl
    refine ⟨more, c1, ?_, hget c1 hinv1 hdone⟩
    rw [runSchedule_append calls sched more _ c hrun, hmore]

theorem concurrent_Sets_all_visible_witness :
    ∃ c, runSchedule [(.string "a", .int 1), (.string "b", .int 2)] (Config.init SyncMap.new)
        [0, 1, 0, 0, 1, 0] = .ok c ∧
      (∀ i call, [(Any.string "a", Any.int 1), (.string "b", .int 2)][i]? = some call →
        c.pc i = 4 → c.store.lookup call.1 = some call.2) ∧
      ((∀ i, i < [(Any.string "a", Any.int 1), (.string "b", .int 2)].length →
          stepGoroutine [(.string "a", .int 1), (.string "b", .int 2)] c i = .ok c) →
        ∀ i call, [(Any.string "a", Any.int 1), (.string "b", .int 2)][i]? = some call →
          c.pc i = 4 ∧ SyncMap.Get c.store call.1 = .ok ((call.2, true), c.store)) ∧
      ∃ more c1, runSchedule [(.string "a", .int 1), (.string "b", .int 2)]
          (Config.init SyncMap.new) ([0, 1, 0, 0, 1, 0] ++ more) = .ok c1 ∧
        ∀ i call, [(Any.string "a", Any.int 1), (.string "b", .int 2)][i]? = some call →
          c1.pc i = 4 ∧ SyncMap.Get c1.store call.1 = .ok ((call.2, true), c1.store) :=
  concurrent_Sets_all_visible [(.string "a", .int 1), (.string "b", .int 2)] SyncMap.new
    [0, 1, 0, 0, 1, 0] (by decide) (by decide) rfl

/-- A run in which the two goroutines interleave, the second one waiting for
the lock: both calls return and both pairs are in the map. -/
theorem schedule_example :
    (runSchedule [(.string "a", .int 1), (.string "b", .int 2)] (Config.init SyncMap.new)
        [0, 1, 0, 0, 1, 0, 1, 1, 1, 1]).map
      (fun c => (c.pc 0, c.pc 1, c.store.lookup (.string "a"), c.store.lookup (.string "b"),
        c.store.mu)) =
    .ok (4, 4, some (.int 1), some (.int 2), RWMutex.unlocked) := by
  decide

/-! ## `SyncMap` against the always-allocated store -/

/-- When `Set` returns, the store it leaves is the store it returns. -/
theorem setLeaves_of_ok (d d1 : SyncMap) (key value : Any)
    (h : SyncMap.Set d key value = .ok d1) : SyncMap.setLeaves d key value = d1 := by
  unfold SyncMap.Set at h
  unfold SyncMap.setLeaves
  cases h0 : SyncMap.setStep key value d 0 with
  | error f => rw [h0] at h; exact Except.noConfusion h
  | ok a =>
    rw [h0] at h
    simp only [Except.bind] at h ⊢
    cases h1 : SyncMap.setStep key value a 1 with
    | error f => rw [h1] at h; exact Except.noConfusion h
    | ok b =>
      rw [h1] at h
      simp only at h ⊢
      cases h2 : SyncMap.setStep key value b 2 with
      | error f => rw [h2] at h; exact Except.noConfusion h
      | ok c =>
        rw [h2] at h
        simp only at h ⊢
        cases h3 : SyncMap.setStep key value c 3 with
        | error f => rw [h3] at h; exact Except.noConfusion h
        | ok e =>
          rw [h3] at h
          injection h

theorem apply_keeps_nonempty (d d1 : SyncMap) (op : Op) (obs : Obs)
    (hfree : d.mu = RWMutex.unlocked)
    (hinv : d.item = none ∨ ∃ m, d.item = some m ∧ m ≠ [])
    (hap : SyncMap.apply d op = .ok (obs, d1)) :
    d1.mu = RWMutex.unlocked ∧ (d1.item = none ∨ ∃ m, d1.item = some m ∧ m ≠ []) := by
  have hw : d.mu.writer = false := by rw [hfree]; rfl
  cases op with
  | Set key value =>
    cases hkey : key.hashable with
    | false =>
      simp only [SyncMap.apply, Set_unhashable d key value hfree hkey, Except.map] at hap
      exact Except.noConfusion hap
    | true =>
      simp only [SyncMap.apply, Set_eq d key value hfree hkey, Except.map, Except.ok.injEq,
        Prod.mk.injEq] at hap
      rw [← hap.2]
      exact ⟨rfl, Or.inr ⟨_, rfl, insert_ne_nil _ key value⟩⟩
  | Clear =>
    simp only [SyncMap.apply, Clear_eq d hfree, Except.map, Except.ok.injEq,
      Prod.mk.injEq] at hap
    rw [← hap.2]
    exact ⟨rfl, Or.inl rfl⟩
  | Reset =>
    simp only [SyncMap.apply, SyncMap.Reset, Clear_eq d hfree, Except.map, Except.ok.injEq,
      Prod.mk.injEq] at hap
    rw [← hap.2]
    exact ⟨rfl, Or.inl rfl⟩
  | Get key =>
    cases hkey : key.hashable with
    | false =>
      simp only [SyncMap.apply, Get_unhashable d key hw hkey, Except.map] at hap
      exact Except.noConfusion hap
    | true =>
      simp only [SyncMap.apply, Get_eq d key hw hkey, Except.map, Except.ok.injEq,
        Prod.mk.injEq] at hap
      rw [← hap.2]
      exact ⟨hfree, hinv⟩
  | typed g key dflt =>
    cases hkey : key.hashable with
    | false =>
      exfalso
      have hget := Get_unhashable d key hw hkey
      cases g <;>
        simp [SyncMap.apply, Getter.call, SyncMap.GetString, SyncMap.GetInt, SyncMap.GetInt8,
          SyncMap.GetInt16, SyncMap.GetInt32, SyncMap.GetInt64, SyncMap.GetUint,
          SyncMap.GetUint8, SyncMap.GetUint16, SyncMap.GetUint32, SyncMap.GetUint64,
          SyncMap.GetBool, hget, Except.bind, Except.map] at hap
    | true =>
      simp only [SyncMap.apply, typed_eq g d key dflt hw hkey, Except.map, Except.ok.injEq,
        Prod.mk.injEq] at hap
      rw [← hap.2]
      exact ⟨hfree, hinv⟩

theorem run_keeps_nonempty : ∀ (ops : List Op) (d d1 : SyncMap) (obs : List Obs),
    d.mu = RWMutex.unlocked →
    (d.item = none ∨ ∃ m, d.item = some m ∧ m ≠ []) →
    SyncMap.run d ops = .ok (obs, d1) →
    d1.mu = RWMutex.unlocked ∧ (d1.item = none ∨ ∃ m, d1.item = some m ∧ m ≠ []) := by
  intro ops
  induction ops with
  | nil =>
    intro d d1 obs hfree hinv hrun
    simp only [SyncMap.run, Except.ok.injEq, Prod.mk.injEq] at hrun
    rw [← hrun.2]
    exact ⟨hfree, hinv⟩
  | cons op ops ih =>
    intro d d1 obs hfree hinv hrun
    simp only [SyncMap.run] at hrun
    cases hap : SyncMap.apply d op with
    | error f => rw [hap] at hrun; exact Except.noConfusion hrun
    | ok r =>
      rw [hap] at hrun
      obtain ⟨hfree1, hinv1⟩ := apply_keeps_nonempty d r.2 op r.1 hfree hinv hap
      cases hrest : SyncMap.run r.2 ops with
      | error f =>
        simp only [Except.bind, hrest, Except.map] at hrun
        exact Except.noConfusion hrun
      | ok rs =>
        have heq : rs.2 = d1 := by
          simp only [Except.bind, hrest, Except.map, Except.ok.injEq, Prod.mk.injEq] at hrun
          exact hrun.2
        rw [← heq]
        exact ih r.2 rs.2 rs.1 hfree1 hinv1 hrest

/-- C18, as stated, fails: on the zero value `Set` with an unhashable key
takes the lock and allocates the map, and then panics at the assignment.  The
call does not return, and the store it leaves has an allocated map with no
entry, and the lock held. -/
theorem Set_panic_leaves_empty_map :
    SyncMap.Set SyncMap.new (.unhashable 0 0) (.int 1) = .error .hashOfUnhashable ∧
    SyncMap.setLeaves SyncMap.new (.unhashable 0 0) (.int 1) =
      ⟨some [], ⟨true, 0⟩⟩ ∧
    ¬ ((SyncMap.setLeaves SyncMap.new (.unhashable 0 0) (.int 1)).item = none ∨
      ∃ m, (SyncMap.setLeaves SyncMap.new (.unhashable 0 0) (.int 1)).item = some m ∧
        m ≠ []) := by
  have hl : SyncMap.setLeaves SyncMap.new (.unhashable 0 0) (.int 1) =
      ⟨some [], ⟨true, 0⟩⟩ := by decide
  refine ⟨by decide, hl, ?_⟩
  rw [hl]
  rintro (h | ⟨m, hm, hne⟩)
  · exact Option.noConfusion h
  · injection hm with hm
    exact hne hm.symm

/-- C18, amended: in every store reachable from the zero value by `Set`,
`Get`, `Clear`, `Reset` and typed-getter calls each of which returns, the map
is nil or holds at least one entry; an allocated map without entries does not
occur. -/
theorem reachable_map_nil_or_nonempty (d : SyncMap) (h : d.Reachable) :
    d.item = none ∨ ∃ m, d.item = some m ∧ m ≠ [] := by
  obtain ⟨ops, obs, hrun⟩ := h
  exact (run_keeps_nonempty ops SyncMap.new d obs rfl (Or.inl rfl) hrun).2

theorem reachable_map_nil_or_nonempty_witness :
    (⟨some [(.string "k", .int 42)], RWMutex.unlocked⟩ : SyncMap).item = none ∨
      ∃ m, (⟨some [(.string "k", .int 42)], RWMutex.unlocked⟩ : SyncMap).item = some m ∧
        m ≠ [] :=
  reachable_map_nil_or_nonempty _
    ⟨[.Get (.string "k"), .Set (.string "k") (.int 42)], [.got .nil false, .done], by decide⟩

/-! ## Defaults -/

/-- The error an integer accessor returns is the error of its parse, whatever
the defaults. -/
theorem call_err (a : IntAccessor) (arch : Arch) (v : Value) (dflt : List a.T) :
    ∃ r, a.call arch v dflt = .ok r ∧ r.2 = (a.parse arch v).2 := by
  rw [call_eq]
  cases dflt with
  | nil =>
    simp only [List.length_nil, gt_iff_lt, lt_self_iff_false, if_false]
    split_ifs <;> exact ⟨_, rfl, rfl⟩
  | cons d rest =>
    simp only [List.length_cons, gt_iff_lt, Nat.zero_lt_succ, if_true, index_cons_zero]
    split_ifs
    · exact ⟨_, rfl, rfl⟩
    · exact ⟨_, rfl, rfl⟩

/-- The parse of an empty receiver fails, so the test `v.IsEmpty()` adds
nothing to the test of the error. -/
theorem isEmpty_imp_err (a : IntAccessor) (arch : Arch) (v : Value)
    (h : Value.IsEmpty v = true) : (a.parse arch v).2.isSome = true := by
  have hv : v = "" := by simpa [Value.IsEmpty] using h
  rw [hv, (parse_empty a arch).1]
  rfl

/-- C19: for every integer accessor and every string, the error returned does
not depend on the defaults: it is the error returned without defaults, and it
is nil exactly when the string is a base-10 literal of the accessor's
signedness within the range of the result type.  The accessor therefore equals
the accessor without the test `|| v.IsEmpty()`. -/
theorem error_independent_of_defaults (a : IntAccessor) (arch : Arch) (s : Value)
    (dflt : List a.T) :
    (∃ r r0, a.call arch s dflt = .ok r ∧ a.call arch s [] = .ok r0 ∧ r.2 = r0.2 ∧
      (r.2 = none ↔ (a.isLiteral s = true ∧ a.inRange arch s))) ∧
    a.call arch s dflt = a.callOnErrorOnly arch s dflt := by
  constructor
  · obtain ⟨r, hr, he⟩ := call_err a arch s dflt
    obtain ⟨r0, hr0, he0⟩ := call_err a arch s []
    refine ⟨r, r0, hr, hr0, by rw [he, he0], ?_⟩
    rw [he]
    have h := parse_err_isSome_iff a arch s
    constructor
    · intro hnone
      by_contra hcon
      have := h.2 hcon
      rw [hnone] at this
      exact Bool.noConfusion this
    · intro hok
      cases hp : (a.parse arch s).2 with
      | none => rfl
      | some e =>
        exfalso
        exact h.1 (by rw [hp]; rfl) hok
  · rw [call_eq, IntAccessor.callOnErrorOnly]
    by_cases herr : (a.parse arch s).2.isSome = true
    · rw [if_pos (Or.inl herr), if_pos herr]
    · have hne : ¬ (Value.IsEmpty s = true) := fun h => herr (isEmpty_imp_err a arch s h)
      rw [if_neg (by tauto), if_neg herr]

/-- C20: only the first supplied default is used.  For `Text`, every integer
accessor, `Bool`, `Duration` and every typed getter of `SyncMap`, for every
receiver or store, the result with the defaults `d, rest...` is the result
with the single default `d`. -/
theorem only_first_default_used :
    (∀ (v : Value) (d : String) (rest : List String),
      Value.Text v (d :: rest) = Value.Text v [d]) ∧
    (∀ (a : IntAccessor) (arch : Arch) (v : Value) (d : a.T) (rest : List a.T),
      a.call arch v (d :: rest) = a.call arch v [d]) ∧
    (∀ (v : Value) (d : Bool) (rest : List Bool),
      Value.Bool v (d :: rest) = Value.Bool v [d]) ∧
    (∀ (arch : Arch) (v : Value) (d : ℤ) (rest : List ℤ),
      Value.Duration arch v (d :: rest) = Value.Duration arch v [d]) ∧
    (∀ (g : Getter) (st : SyncMap) (k : Any) (d : g.T) (rest : List g.T),
      g.call st k (d :: rest) = g.call st k [d]) := by
  have hint : ∀ (a : IntAccessor) (arch : Arch) (v : Value) (d : a.T) (rest : List a.T),
      a.call arch v (d :: rest) = a.call arch v [d] := by
    intro a arch v d rest
    rw [call_eq, call_eq]
    simp only [List.length_cons, gt_iff_lt, Nat.zero_lt_succ, if_true, index_cons_zero]
  refine ⟨?_, hint, ?_, ?_, ?_⟩
  · intro v d rest
    simp only [Value.Text, List.length_cons, gt_iff_lt, Nat.zero_lt_succ, index_cons_zero]
  · intro v d rest
    simp only [Value.Bool, List.length_cons, gt_iff_lt, Nat.zero_lt_succ, if_true,
      index_cons_zero]
  · intro arch v d rest
    have h := hint .Int64 arch v d rest
    have h2 : Value.Int64 arch v (d :: rest) = Value.Int64 arch v [d] := h
    rw [Value.Duration, Value.Duration, h2]
  · intro g st k d rest
    cases g <;>
      simp only [Getter.call, SyncMap.GetString, SyncMap.GetInt, SyncMap.GetInt8,
        SyncMap.GetInt16, SyncMap.GetInt32, SyncMap.GetInt64, SyncMap.GetUint,
        SyncMap.GetUint8, SyncMap.GetUint16, SyncMap.GetUint32, SyncMap.GetUint64,
        SyncMap.GetBool, List.length_cons, gt_iff_lt, Nat.zero_lt_succ, if_true,
        indexF_cons_zero]

end Regia
